import Mathlib

/-!
Verification of the HUDDLE NFL-standings viewer (`src/huddle.py`).

The development shallowly embeds the data-handling layer of the program:
JSON values become the inductive type `Json`; Python `None` is `Json.null`;
Python truthiness, `int(...)` conversion, dict lookups and dict insertion
are modelled explicitly.  Operations that can raise a Python exception are
modelled in `Except PyErr`, distinguishing `ValueError` (which the fetch
boundary catches) from `TypeError`/`AttributeError` (which it does not).

Embedded functions keep the names of their Python counterparts:
`collect_entries` (`_collect_entries`), `parse_standings`,
`fetch_roster_payload`, `populate_college_names`
(`_populate_college_names`), `fetch_and_apply_data` + `apply_new_data`
(the background standings fetch cycle), `start_background_fetch` and
`start_roster_fetch` (the fetch de-duplication guards), and
`pointDifferential` (the differential computed in
`display_selected_team`).
-/

namespace Huddle

/-- JSON values as delivered by the upstream API; `null` doubles as Python
`None`.  Numbers are integers (the stats relevant to the specification are
integral). -/
inductive Json where
  | null
  | bool (b : Bool)
  | num (n : Int)
  | str (s : String)
  | arr (xs : List Json)
  | obj (fields : List (String × Json))
  deriving Repr

mutual

def Json.decEq : (a b : Json) → Decidable (a = b)
  | .null, .null => .isTrue rfl
  | .bool a, .bool b =>
    if h : a = b then .isTrue (by rw [h])
    else .isFalse (by intro hh; injection hh; contradiction)
  | .num a, .num b =>
    if h : a = b then .isTrue (by rw [h])
    else .isFalse (by intro hh; injection hh; contradiction)
  | .str a, .str b =>
    if h : a = b then .isTrue (by rw [h])
    else .isFalse (by intro hh; injection hh; contradiction)
  | .arr a, .arr b =>
    match Json.decEqList a b with
    | .isTrue h => .isTrue (by rw [h])
    | .isFalse h => .isFalse (by intro hh; injection hh; contradiction)
  | .obj a, .obj b =>
    match Json.decEqFields a b with
    | .isTrue h => .isTrue (by rw [h])
    | .isFalse h => .isFalse (by intro hh; injection hh; contradiction)
  | .null, .bool _ => .isFalse (fun h => Json.noConfusion h)
  | .null, .num _ => .isFalse (fun h => Json.noConfusion h)
  | .null, .str _ => .isFalse (fun h => Json.noConfusion h)
  | .null, .arr _ => .isFalse (fun h => Json.noConfusion h)
  | .null, .obj _ => .isFalse (fun h => Json.noConfusion h)
  | .bool _, .null => .isFalse (fun h => Json.noConfusion h)
  | .bool _, .num _ => .isFalse (fun h => Json.noConfusion h)
  | .bool _, .str _ => .isFalse (fun h => Json.noConfusion h)
  | .bool _, .arr _ => .isFalse (fun h => Json.noConfusion h)
  | .bool _, .obj _ => .isFalse (fun h => Json.noConfusion h)
  | .num _, .null => .isFalse (fun h => Json.noConfusion h)
  | .num _, .bool _ => .isFalse (fun h => Json.noConfusion h)
  | .num _, .str _ => .isFalse (fun h => Json.noConfusion h)
  | .num _, .arr _ => .isFalse (fun h => Json.noConfusion h)
  | .num _, .obj _ => .isFalse (fun h => Json.noConfusion h)
  | .str _, .null => .isFalse (fun h => Json.noConfusion h)
  | .str _, .bool _ => .isFalse (fun h => Json.noConfusion h)
  | .str _, .num _ => .isFalse (fun h => Json.noConfusion h)
  | .str _, .arr _ => .isFalse (fun h => Json.noConfusion h)
  | .str _, .obj _ => .isFalse (fun h => Json.noConfusion h)
  | .arr _, .null => .isFalse (fun h => Json.noConfusion h)
  | .arr _, .bool _ => .isFalse (fun h => Json.noConfusion h)
  | .arr _, .num _ => .isFalse (fun h => Json.noConfusion h)
  | .arr _, .str _ => .isFalse (fun h => Json.noConfusion h)
  | .arr _, .obj _ => .isFalse (fun h => Json.noConfusion h)
  | .obj _, .null => .isFalse (fun h => Json.noConfusion h)
  | .obj _, .bool _ => .isFalse (fun h => Json.noConfusion h)
  | .obj _, .num _ => .isFalse (fun h => Json.noConfusion h)
  | .obj _, .str _ => .isFalse (fun h => Json.noConfusion h)
  | .obj _, .arr _ => .isFalse (fun h => Json.noConfusion h)

def Json.decEqList : (a b : List Json) → Decidable (a = b)
  | [], [] => .isTrue rfl
  | [], _ :: _ => .isFalse (fun h => List.noConfusion h)
  | _ :: _, [] => .isFalse (fun h => List.noConfusion h)
  | x :: xs, y :: ys =>
    match Json.decEq x y with
    | .isTrue h1 =>
      match Json.decEqList xs ys with
      | .isTrue h2 => .isTrue (by rw [h1, h2])
      | .isFalse h2 => .isFalse (by intro hh; injection hh; contradiction)
    | .isFalse h1 => .isFalse (by intro hh; injection hh; contradiction)

def Json.decEqFields : (a b : List (String × Json)) → Decidable (a = b)
  | [], [] => .isTrue rfl
  | [], _ :: _ => .isFalse (fun h => List.noConfusion h)
  | _ :: _, [] => .isFalse (fun h => List.noConfusion h)
  | (k1, v1) :: xs, (k2, v2) :: ys =>
    match String.decEq k1 k2 with
    | .isTrue hk =>
      match Json.decEq v1 v2 with
      | .isTrue h1 =>
        match Json.decEqFields xs ys with
        | .isTrue h2 => .isTrue (by rw [hk, h1, h2])
        | .isFalse h2 => .isFalse (by intro hh; injection hh; simp_all)
      | .isFalse h1 => .isFalse (by intro hh; injection hh; simp_all)
    | .isFalse hk => .isFalse (by intro hh; injection hh; simp_all)

end

instance : DecidableEq Json := Json.decEq

instance {e a : Type} [DecidableEq e] [DecidableEq a] : DecidableEq (Except e a) := fun x y =>
  match x, y with
  | .ok u, .ok v =>
    if h : u = v then .isTrue (by rw [h])
    else .isFalse (by intro hh; injection hh; contradiction)
  | .error u, .error v =>
    if h : u = v then .isTrue (by rw [h])
    else .isFalse (by intro hh; injection hh; contradiction)
  | .ok _, .error _ => .isFalse (fun h => Except.noConfusion h)
  | .error _, .ok _ => .isFalse (fun h => Except.noConfusion h)

/-- Python truthiness of a JSON value (`bool(x)`). -/
def Json.truthy : Json → Bool
  | .null => false
  | .bool b => b
  | .num n => decide (n ≠ 0)
  | .str s => !s.isEmpty
  | .arr xs => !xs.isEmpty
  | .obj fs => !fs.isEmpty

/-- Python hashability of a JSON value: lists and dicts are unhashable. -/
def Json.hashable : Json → Bool
  | .arr _ => false
  | .obj _ => false
  | _ => true

/-- Python exceptions relevant to the embedded code.  The standings and
roster fetch boundaries catch `ValueError` (and its subclass
`json.JSONDecodeError`) but not `TypeError` or `AttributeError`. -/
inductive PyErr where
  | valueError (msg : String)
  | typeError (msg : String)
  | attributeError (msg : String)
  deriving DecidableEq, Repr

/-- First field of a JSON object with the given key (Python dicts have
unique keys, so this is `node[key]` / `key in node`). -/
def jLookup : List (String × Json) → String → Option Json
  | [], _ => none
  | (k, v) :: rest, key => if k = key then some v else jLookup rest key

/-- `node.get(key, default)`. -/
def jGetD (fs : List (String × Json)) (key : String) (d : Json) : Json :=
  (jLookup fs key).getD d

/-- `node.get(key)`: missing keys give Python `None`, i.e. `Json.null`. -/
def nGet (fs : List (String × Json)) (key : String) : Json :=
  jGetD fs key .null

/-- Python `a or b` on JSON values. -/
def orJ (a b : Json) : Json :=
  if a.truthy then a else b

/-- Python `str.strip()`: drop leading and trailing whitespace. -/
def pyStrip (s : String) : String :=
  String.mk (((s.data.dropWhile Char.isWhitespace).reverse.dropWhile
    Char.isWhitespace).reverse)

/-- `s.startswith(p)` over the character lists. -/
def strStartsWith (s p : String) : Bool :=
  p.data.isPrefixOf s.data

/-- Decimal-digit parse used by `int(str)`. -/
def parsePyIntDigits (cs : List Char) : Option Nat :=
  if cs.isEmpty then none
  else if cs.all Char.isDigit then
    some (cs.foldl (fun acc c => acc * 10 + (c.toNat - 48)) 0)
  else none

/-- Python `int(s)` for strings: optional surrounding whitespace and sign,
then decimal digits. -/
def parsePyInt (s : String) : Option Int :=
  match (pyStrip s).data with
  | [] => none
  | c :: cs =>
    if c = Char.ofNat 45 then (parsePyIntDigits cs).map (fun n => -(n : Int))
    else if c = Char.ofNat 43 then (parsePyIntDigits cs).map (fun n => (n : Int))
    else (parsePyIntDigits (c :: cs)).map (fun n => (n : Int))

/-- Python `int(x)` on a JSON value: numbers pass through, booleans become
0/1, strings are parsed (`ValueError` on failure), everything else is a
`TypeError`. -/
def pyInt : Json → Except PyErr Int
  | .num n => .ok n
  | .bool b => .ok (if b then 1 else 0)
  | .str s =>
    match parsePyInt s with
    | some n => .ok n
    | none => .error (.valueError ("invalid literal for int() with base 10: "
        ++ String.singleton (Char.ofNat 39) ++ s ++ String.singleton (Char.ofNat 39)))
  | .null => .error (.typeError "int() argument must not be None")
  | .arr _ => .error (.typeError "int() argument must not be a list")
  | .obj _ => .error (.typeError "int() argument must not be a dict")

mutual

def pyRepr : Json → String
  | .null => "None"
  | .bool true => "True"
  | .bool false => "False"
  | .num n => toString n
  | .str s => String.singleton (Char.ofNat 39) ++ s ++ String.singleton (Char.ofNat 39)
  | .arr xs => "[" ++ String.intercalate ", " (pyReprList xs) ++ "]"
  | .obj fs => "\x7b" ++ String.intercalate ", " (pyReprFields fs) ++ "\x7d"

def pyReprList : List Json → List String
  | [] => []
  | x :: xs => pyRepr x :: pyReprList xs

def pyReprFields : List (String × Json) → List String
  | [] => []
  | (k, v) :: rest =>
    (String.singleton (Char.ofNat 39) ++ k ++ String.singleton (Char.ofNat 39) ++ ": " ++ pyRepr v)
      :: pyReprFields rest

end

/-- Python `str(x)` on a JSON value. -/
def pyStr : Json → String
  | .str s => s
  | .arr xs => "[" ++ String.intercalate ", " (pyReprList xs) ++ "]"
  | .obj fs => "\x7b" ++ String.intercalate ", " (pyReprFields fs) ++ "\x7d"
  | j => pyRepr j

/-- Membership `x in {set of string literals}`; unhashable values raise
`TypeError` exactly as in Python. -/
def pySetMember (x : Json) (s : List String) : Except PyErr Bool :=
  if x.hashable then .ok (s.any (fun t => decide (x = Json.str t)))
  else .error (.typeError "unhashable type in set membership")

/-- Conference-marker detection of `_collect_entries`: the
`isConference` flag, an `AFC`/`NFC` abbreviation, or a full conference
name, updates the conference label carried down the tree. -/
def confOf (fs : List (String × Json)) (conference : Json) : Except PyErr Json := do
  if (nGet fs "isConference").truthy then
    pure (orJ (nGet fs "abbreviation") (orJ (nGet fs "shortName") (orJ (nGet fs "name") conference)))
  else
    let isAbbr ← pySetMember (nGet fs "abbreviation") ["AFC", "NFC"]
    if isAbbr then
      pure (nGet fs "abbreviation")
    else
      let isName ← pySetMember (nGet fs "name")
        ["American Football Conference", "National Football Conference"]
      if isName then
        pure (orJ (nGet fs "abbreviation") (orJ (nGet fs "shortName") (nGet fs "name")))
      else
        pure conference

mutual

/-- `_collect_entries`: walk the standings payload and return every team
entry together with the nearest enclosing conference label.  Lists are
containers, dict nodes contribute their `entries` list and are searched
through the fixed set of wrapper keys. -/
def collect_entries : Json → Json → Except PyErr (List (Json × Json))
  | .arr xs, conference => collectItems xs conference
  | .obj fs, conference => do
    let cc ← confOf fs conference
    let base := match jLookup fs "entries" with
      | some (.arr es) => es.map (fun e => (e, cc))
      | _ => []
    let r1 ← collectField fs "standings" cc
    let r2 ← collectField fs "children" cc
    let r3 ← collectField fs "groups" cc
    let r4 ← collectField fs "leagues" cc
    let r5 ← collectField fs "conferences" cc
    let r6 ← collectField fs "divisions" cc
    pure (base ++ r1 ++ r2 ++ r3 ++ r4 ++ r5 ++ r6)
  | _, _ => .ok []

def collectItems : List Json → Json → Except PyErr (List (Json × Json))
  | [], _ => .ok []
  | x :: xs, conference => do
    let r ← collect_entries x conference
    let rs ← collectItems xs conference
    pure (r ++ rs)

def collectField : List (String × Json) → String → Json → Except PyErr (List (Json × Json))
  | [], _, _ => .ok []
  | (k, v) :: rest, key, conference =>
    if k = key then collect_entries v conference else collectField rest key conference

end

/-- The static `TEAM_METADATA` table: team name, conference, division. -/
def teamMetadata : List (String × String × String) := [
  ("Buffalo Bills", "AFC", "AFC East"),
  ("Miami Dolphins", "AFC", "AFC East"),
  ("New England Patriots", "AFC", "AFC East"),
  ("New York Jets", "AFC", "AFC East"),
  ("Baltimore Ravens", "AFC", "AFC North"),
  ("Cincinnati Bengals", "AFC", "AFC North"),
  ("Cleveland Browns", "AFC", "AFC North"),
  ("Pittsburgh Steelers", "AFC", "AFC North"),
  ("Houston Texans", "AFC", "AFC South"),
  ("Indianapolis Colts", "AFC", "AFC South"),
  ("Jacksonville Jaguars", "AFC", "AFC South"),
  ("Tennessee Titans", "AFC", "AFC South"),
  ("Denver Broncos", "AFC", "AFC West"),
  ("Kansas City Chiefs", "AFC", "AFC West"),
  ("Las Vegas Raiders", "AFC", "AFC West"),
  ("Los Angeles Chargers", "AFC", "AFC West"),
  ("Dallas Cowboys", "NFC", "NFC East"),
  ("New York Giants", "NFC", "NFC East"),
  ("Philadelphia Eagles", "NFC", "NFC East"),
  ("Washington Commanders", "NFC", "NFC East"),
  ("Chicago Bears", "NFC", "NFC North"),
  ("Detroit Lions", "NFC", "NFC North"),
  ("Green Bay Packers", "NFC", "NFC North"),
  ("Minnesota Vikings", "NFC", "NFC North"),
  ("Atlanta Falcons", "NFC", "NFC South"),
  ("Carolina Panthers", "NFC", "NFC South"),
  ("New Orleans Saints", "NFC", "NFC South"),
  ("Tampa Bay Buccaneers", "NFC", "NFC South"),
  ("Arizona Cardinals", "NFC", "NFC West"),
  ("Los Angeles Rams", "NFC", "NFC West"),
  ("San Francisco 49ers", "NFC", "NFC West"),
  ("Seattle Seahawks", "NFC", "NFC West")]

/-- `TEAM_METADATA.get(name)` for a string key. -/
def teamMeta (name : String) : Option (String × String) :=
  (teamMetadata.find? (fun p => p.1 == name)).map (fun p => p.2)

/-- `TEAM_METADATA.get(display_name, {})` for any (hashable) JSON key:
non-string keys match nothing. -/
def metaOf : Json → Option (String × String)
  | .str s => teamMeta s
  | _ => none

/-- One normalized team record, as stored by `parse_standings` under the
team display name. -/
structure TeamRec where
  record : String
  wins : Int
  losses : Int
  ties : Int
  points_for : Json
  points_against : Json
  win_pct : Json
  streak : Json
  note : Json
  conference : Json
  division : Json
  conference_rank : Json
  team_id : Json
  deriving Repr, DecidableEq

/-- Last-wins lookup in an association list built by a Python dict
comprehension (later duplicate keys overwrite earlier ones). -/
def dGetLast : List (Json × Json) → Json → Option Json
  | [], _ => none
  | (k0, v0) :: rest, k =>
    match dGetLast rest k with
    | some v => some v
    | none => if k0 = k then some v0 else none

/-- Python dict insertion `d[k] = v` on an insertion-ordered association
list: overwrite in place if the key exists, else append. -/
def dictInsert {α : Type} : List (Json × α) → Json → α → List (Json × α)
  | [], k, v => [(k, v)]
  | (k0, v0) :: rest, k, v =>
    if k0 = k then (k0, v) :: rest else (k0, v0) :: dictInsert rest k v

/-- Lookup in a Python dict keyed by JSON values. -/
def jGet {α : Type} : List (Json × α) → Json → Option α
  | [], _ => none
  | (k0, v0) :: rest, k => if k0 = k then some v0 else jGet rest k

/-- Python set membership for collected team ids. -/
def jElem (x : Json) (l : List Json) : Bool :=
  l.any (fun y => decide (y = x))

/-- Iterating `for item in stats_block`: lists yield their elements, dicts
their keys, strings their characters; other values raise `TypeError`. -/
def iterStats : Json → Except PyErr (List Json)
  | .arr xs => .ok xs
  | .obj fs => .ok (fs.map (fun kv => Json.str kv.1))
  | .str s => .ok (s.toList.map (fun ch => Json.str (String.singleton ch)))
  | _ => .error (.typeError "object is not iterable")

/-- Naive substring test, for Python `"name" in some_string`. -/
def strContainsSub (hay needle : String) : Bool :=
  (List.range (hay.toList.length + 1)).any
    (fun i => needle.toList.isPrefixOf (hay.toList.drop i))

/-- Python `"name" in item`: key membership for dicts, substring for
strings, element membership for lists, `TypeError` otherwise. -/
def hasNameKey : Json → Except PyErr Bool
  | .obj fs => .ok ((jLookup fs "name").isSome)
  | .str s => .ok (strContainsSub s "name")
  | .arr xs => .ok (jElem (Json.str "name") xs)
  | _ => .error (.typeError "argument of the membership test is not iterable")

/-- The two dict comprehensions over `stats_block`: keep items with a
`name` key and record `(name, value, displayValue)`.  Items passing the
membership test but lacking `.get` raise `AttributeError`; unhashable
`name` values raise `TypeError` when used as dict keys. -/
def statTriples : List Json → Except PyErr (List (Json × Json × Json))
  | [] => .ok []
  | item :: rest => do
    let hn ← hasNameKey item
    if hn then
      match item with
      | .obj fs =>
        let nm := nGet fs "name"
        if nm.hashable then do
          let tl ← statTriples rest
          .ok ((nm, nGet fs "value", nGet fs "displayValue") :: tl)
        else .error (.typeError "unhashable type as dict key")
      | _ => .error (.attributeError "object has no attribute get")
    else statTriples rest

/-- The string extraction `join` performs on each of its (truthy)
arguments: non-strings raise `TypeError`. -/
def strOfParts : List Json → Except PyErr (List String)
  | [] => .ok []
  | p :: rest =>
    match p with
    | Json.str s => do
      let tl ← strOfParts rest
      .ok (s :: tl)
    | _ => .error (.typeError "sequence item: expected str instance")

/-- `" ".join(filter(None, [team.get("location"), team.get("name")])).strip()`:
truthy parts must be strings (`join` raises `TypeError` otherwise). -/
def joinedLocName (tfs : List (String × Json)) : Except PyErr String := do
  let strs ← strOfParts ([nGet tfs "location", nGet tfs "name"].filter Json.truthy)
  pure (pyStrip (String.intercalate " " strs))

/-- Display-name resolution of `parse_standings`:
`team.get("displayName") or " ".join(filter(None, [location, name])).strip()
or team.get("name", "Unknown Team")`. -/
def displayNameOf (tfs : List (String × Json)) : Except PyErr Json := do
  let dn := nGet tfs "displayName"
  if dn.truthy then pure dn
  else do
    let joined ← joinedLocName tfs
    if (Json.str joined).truthy then pure (Json.str joined)
    else pure (jGetD tfs "name" (.str "Unknown Team"))

/-- The guarded conference-seed conversion:
`int(seed_raw) if seed_raw is not None else None`, with `TypeError` and
`ValueError` caught and degraded to `None`. -/
def conferenceRankOf (seed_raw : Json) : Json :=
  if seed_raw = .null then .null
  else
    match pyInt seed_raw with
    | .ok n => .num n
    | .error _ => .null

/-- `entry.get("note", {}).get("text")`. -/
def noteOf (efs : List (String × Json)) : Except PyErr Json :=
  match jGetD efs "note" (.obj []) with
  | .obj nfs => .ok (nGet nfs "text")
  | _ => .error (.attributeError "object has no attribute get")

/-- `entry.get("team", {})` followed by attribute access on the result:
a non-dict `team` value raises `AttributeError` at `team.get("id")`. -/
def teamFieldsOf (efs : List (String × Json)) : Except PyErr (List (String × Json)) :=
  match jGetD efs "team" (.obj []) with
  | .obj tfs => .ok tfs
  | _ => .error (.attributeError "object has no attribute get")

/-- All per-entry values computed by the body of the `parse_standings`
loop, in source order, before the record dict is assembled. -/
structure EntryCore where
  display_name : Json
  conference : Json
  meta_conference : Json
  meta_division : Json
  wins : Int
  losses : Int
  ties : Int
  points_for : Json
  points_against : Json
  win_pct : Json
  streak : Json
  conference_rank : Json
  note : Json
  team_id : Json
  deriving Repr, DecidableEq

/-- `f"{wins}-{losses}"` when `ties == 0`, else `f"{wins}-{losses}-{ties}"`. -/
def recordText (wins losses ties : Int) : String :=
  if ties = 0 then toString wins ++ "-" ++ toString losses
  else toString wins ++ "-" ++ toString losses ++ "-" ++ toString ties

/-- Assemble the record dict stored at `parsed[display_name]` from the
computed per-entry values. -/
def normalizeFromCore (c : EntryCore) : Json × TeamRec :=
  (c.display_name,
    { record := recordText c.wins c.losses c.ties
      wins := c.wins
      losses := c.losses
      ties := c.ties
      points_for := c.points_for
      points_against := c.points_against
      win_pct := c.win_pct
      streak := c.streak
      note := c.note
      conference := orJ c.conference c.meta_conference
      division := c.meta_division
      conference_rank := c.conference_rank
      team_id := if c.team_id = .null then Json.null else Json.str (pyStr c.team_id) })

/-- `stats = {item["name"]: item["value"] ...}` from the collected
triples. -/
def statsMapOf (triples : List (Json × Json × Json)) : List (Json × Json) :=
  triples.map (fun t => (t.1, t.2.1))

/-- `display_values = {item["name"]: item["displayValue"] ...}` from the
collected triples. -/
def dvalsMapOf (triples : List (Json × Json × Json)) : List (Json × Json) :=
  triples.map (fun t => (t.1, t.2.2))

/-- The argument of `int(stats.get(key, 0) or 0)`. -/
def intArgOf (triples : List (Json × Json × Json)) (key : String) : Json :=
  orJ ((dGetLast (statsMapOf triples) (.str key)).getD (.num 0)) (.num 0)

/-- The pure per-entry values of the `parse_standings` loop body: metadata
lookup for the display name, the plain stat lookups
(`pointsFor`/`pointsAgainst`/`winPercent`/`streak`), the guarded seed
conversion, and the carried conference/note/team id. -/
def coreOf (display_name conference : Json) (triples : List (Json × Json × Json))
    (wins losses ties : Int) (note team_id : Json) : EntryCore :=
  { display_name := display_name
    conference := conference
    meta_conference := match metaOf display_name with
      | some m => Json.str m.1
      | none => Json.null
    meta_division := match metaOf display_name with
      | some m => Json.str m.2
      | none => Json.null
    wins := wins
    losses := losses
    ties := ties
    points_for := (dGetLast (statsMapOf triples) (.str "pointsFor")).getD .null
    points_against := (dGetLast (statsMapOf triples) (.str "pointsAgainst")).getD .null
    win_pct := (dGetLast (statsMapOf triples) (.str "winPercent")).getD .null
    streak := orJ ((dGetLast (dvalsMapOf triples) (.str "streak")).getD .null)
      ((dGetLast (statsMapOf triples) (.str "streak")).getD .null)
    conference_rank := conferenceRankOf ((dGetLast (statsMapOf triples) (.str "playoffSeed")).getD .null)
    note := note
    team_id := team_id }

/-- The fallible per-entry computations of the `parse_standings` loop
after the team dict and id have been extracted, in source order: display
name (needing a hashable key for the metadata lookup), the
stats/display-value dictionaries, `int(...)` for wins/losses/ties, and
the note; the pure lookups are assembled by `coreOf`. -/
def entryCoreRest (efs tfs : List (String × Json)) (team_id conference : Json) :
    Except PyErr EntryCore := do
  let display_name ← displayNameOf tfs
  if display_name.hashable then do
    let items ← iterStats (jGetD efs "stats" (.arr []))
    let triples ← statTriples items
    let wins ← pyInt (intArgOf triples "wins")
    let losses ← pyInt (intArgOf triples "losses")
    let ties ← pyInt (intArgOf triples "ties")
    let note ← noteOf efs
    pure (coreOf display_name conference triples wins losses ties note team_id)
  else .error (.typeError "unhashable type as dict key")

/-- Normalization of one collected `(entry, conference)` pair, exactly as
the body of the `parse_standings` loop performs it. -/
def normalizeEntry (entry conference : Json) : Except PyErr (Json × TeamRec) :=
  match entry with
  | .obj efs => do
    let tfs ← teamFieldsOf efs
    let team_id := nGet tfs "id"
    (entryCoreRest efs tfs team_id conference).map normalizeFromCore
  | _ => .error (.attributeError "object has no attribute get")

/-- The `parse_standings` loop over collected entries: per-entry team-id
extraction, seen-set de-duplication for truthy ids, normalization, and
insertion into the result dict keyed by display name. -/
def parseLoop : List (Json × Json) → List Json → List (Json × TeamRec) →
    Except PyErr (List (Json × TeamRec))
  | [], _, acc => .ok acc
  | (entry, conference) :: rest, seen, acc =>
    match entry with
    | .obj efs => do
      let tfs ← teamFieldsOf efs
      let team_id := nGet tfs "id"
      if team_id.truthy then
        if team_id.hashable then
          if jElem team_id seen then parseLoop rest seen acc
          else do
            let kv ← (entryCoreRest efs tfs team_id conference).map normalizeFromCore
            parseLoop rest (seen ++ [team_id]) (dictInsert acc kv.1 kv.2)
        else .error (.typeError "unhashable type in seen set")
      else do
        let kv ← (entryCoreRest efs tfs team_id conference).map normalizeFromCore
        parseLoop rest seen (dictInsert acc kv.1 kv.2)
    | _ => .error (.attributeError "object has no attribute get")

/-- `parse_standings`: collect every `(entry, conference)` pair from the
raw payload and normalize them into the mapping from display name to
`TeamRec`. -/
def parse_standings (raw_payload : Json) : Except PyErr (List (Json × TeamRec)) := do
  let entries ← collect_entries raw_payload .null
  parseLoop entries [] []

/-- Generic first-occurrence lookup in a string-keyed Python dict. -/
def sLookup {α : Type} : List (String × α) → String → Option α
  | [], _ => none
  | (k, v) :: rest, key => if k = key then some v else sLookup rest key

/-- Python dict insertion for string keys: overwrite in place or append. -/
def sInsert {α : Type} : List (String × α) → String → α → List (String × α)
  | [], k, v => [(k, v)]
  | (k0, v0) :: rest, k, v =>
    if k0 = k then (k0, v) :: rest else (k0, v0) :: sInsert rest k v

/-- Python `dict.setdefault(k, v)` (result dict only). -/
def sSetDefault {α : Type} (l : List (String × α)) (k : String) (v : α) :
    List (String × α) :=
  match sLookup l k with
  | some _ => l
  | none => l ++ [(k, v)]

/-- `_normalize_ref_url`: force `https` on ESPN reference URLs. -/
def normalize_ref_url (url : String) : String :=
  if strStartsWith url "http://" then "https://" ++ url.drop 7 else url

/-- `_extract_college_ref`: the `$ref` URL of a college reference object,
if it is a dict holding a string `$ref`. -/
def extract_college_ref : Json → Option String
  | .obj fs =>
    match jLookup fs "$ref" with
    | some (.str r) => some (normalize_ref_url r)
    | _ => none
  | _ => none

/-- First pass of `_populate_college_names` for one athlete: decide which
college reference (if any) must be consulted and record it in
`refs_to_fetch`, preferring a cached name. -/
def rtfStep (cache : List (String × Json)) (rtf : List (String × Json)) (athlete : Json) :
    Except PyErr (List (String × Json)) :=
  match athlete with
  | .obj afs =>
    let ci := nGet afs "college"
    match ci with
    | .str _ => .ok rtf
    | _ =>
      if (match ci with | .obj cfs => (nGet cfs "name").truthy | _ => false) then .ok rtf
      else
        match extract_college_ref ci with
        | none => .ok rtf
        | some ref =>
          if ref.isEmpty then .ok rtf
          else
            match sLookup cache ref with
            | some cached =>
              if cached.truthy then .ok (sInsert rtf ref cached)
              else .ok (sSetDefault rtf ref .null)
            | none => .ok (sSetDefault rtf ref .null)
  | _ => .error (.attributeError "object has no attribute get")

/-- First pass of `_populate_college_names` over all athletes. -/
def buildRtf (cache : List (String × Json)) : List Json → List (String × Json) →
    Except PyErr (List (String × Json))
  | [], rtf => .ok rtf
  | a :: rest, rtf => do
    let rtf2 ← rtfStep cache rtf a
    buildRtf cache rest rtf2

/-- `refs = [ref for ref, name in refs_to_fetch.items() if name is None]`. -/
def pendingRefs (rtf : List (String × Json)) : List String :=
  (rtf.filter (fun p => decide (p.2 = Json.null))).map (fun p => p.1)

/-- Second pass of `_populate_college_names`: fetch each still-unresolved
college reference; failed fetches (`HTTPError`/`URLError`/timeout/decode,
modelled as `none`) are skipped, successful payloads must support `.get`
and contribute a truthy name to `refs_to_fetch` and the shared cache. -/
def fetchColleges (cfetch : String → Option Json) :
    List String → List (String × Json) → List (String × Json) →
    Except PyErr (List (String × Json) × List (String × Json))
  | [], rtf, cache => .ok (rtf, cache)
  | ref :: rest, rtf, cache =>
    match cfetch ref with
    | none => fetchColleges cfetch rest rtf cache
    | some payload =>
      match payload with
      | .obj pfs =>
        let name := orJ (nGet pfs "name")
          (orJ (nGet pfs "shortDisplayName") (nGet pfs "displayName"))
        if name.truthy then
          fetchColleges cfetch rest (sInsert rtf ref name) (sInsert cache ref name)
        else fetchColleges cfetch rest rtf cache
      | _ => .error (.attributeError "object has no attribute get")

/-- Third pass of `_populate_college_names` for one athlete: install a
resolved college name, leaving every other field unchanged. -/
def applyCollege (rtf : List (String × Json)) (athlete : Json) : Json :=
  match athlete with
  | .obj afs =>
    let ci := nGet afs "college"
    if (match ci with | .obj cfs => (nGet cfs "name").truthy | _ => false) then athlete
    else
      match extract_college_ref ci with
      | none => athlete
      | some ref =>
        if ref.isEmpty then athlete
        else
          let name := (sLookup rtf ref).getD .null
          if name.truthy then .obj (sInsert afs "college" (.obj [("name", name)]))
          else athlete
  | _ => athlete

/-- `_populate_college_names`: three passes (collect needed references,
fetch the pending ones, fill in names), threading the process-wide
college-name cache. -/
def populate_college_names (cfetch : String → Option Json) (cache : List (String × Json))
    (athletes : List Json) : Except PyErr (List Json × List (String × Json)) := do
  let rtf0 ← buildRtf cache athletes []
  let pr ← fetchColleges cfetch (pendingRefs rtf0) rtf0 cache
  .ok (athletes.map (applyCollege pr.1), pr.2)

/-- The item partition in `fetch_roster_payload`: dict items with a truthy
`$ref` become (normalized) reference URLs, other dict items are inline
athletes, non-dict items are skipped. -/
def splitItems : List Json → Except PyErr (List String × List Json)
  | [] => .ok ([], [])
  | item :: rest =>
    match item with
    | .obj ifs =>
      let ref := nGet ifs "$ref"
      if ref.truthy then
        match ref with
        | .str s => do
          let pr ← splitItems rest
          .ok (normalize_ref_url s :: pr.1, pr.2)
        | _ => .error (.attributeError "object has no attribute startswith")
      else do
        let pr ← splitItems rest
        .ok (pr.1, item :: pr.2)
    | _ => splitItems rest

/-- `fetch_roster_payload`, given the already-decoded roster index and the
outcome of each secondary fetch (`resolve` for player references, `cfetch`
for college references; `none` models a caught fetch/decode failure).
Failed player references become `None` placeholders and are dropped by the
truthiness filter; an empty final athlete list raises `ValueError`. -/
def fetch_roster_payload (resolve cfetch : String → Option Json)
    (cache : List (String × Json)) (roster_index : Json) :
    Except PyErr (Json × List (String × Json)) := do
  let items ← match roster_index with
    | .obj fs => pure (nGet fs "items")
    | _ => throw (.attributeError "object has no attribute get")
  let itemList ← match items with
    | .arr xs => pure xs
    | _ => throw (.valueError "Roster index missing athlete items.")
  let pr ← splitItems itemList
  let results := pr.1.map (fun r => (resolve r).getD Json.null)
  let athletes := pr.2 ++ results.filter Json.truthy
  if athletes.isEmpty then
    throw (.valueError "Roster index returned no athletes.")
  else do
    let pc ← populate_college_names cfetch cache athletes
    pure (Json.obj [("athletes", Json.arr pc.1)], pc.2)

/-- Python `x in container` membership for hashable keys. -/
def pyIn {a : Type} [DecidableEq a] (x : a) (l : List a) : Bool :=
  l.any (fun y => decide (y = x))

/-- Year-keyed cache dict operations (`team_data_by_year` and friends). -/
def insertYear {α : Type} : List (Int × α) → Int → α → List (Int × α)
  | [], y, v => [(y, v)]
  | (y0, v0) :: rest, y, v =>
    if y0 = y then (y0, v) :: rest else (y0, v0) :: insertYear rest y v

def lookupYear {α : Type} : List (Int × α) → Int → Option α
  | [], _ => none
  | (y0, v0) :: rest, y => if y0 = y then some v0 else lookupYear rest y

/-- Outcome of the primary standings fetch (`fetch_json`): a decoded
payload, a network error (`HTTPError`/`URLError`/timeout), or a JSON
decode error. -/
inductive FetchResult where
  | ok (payload : Json)
  | netErr (msg : String)
  | decodeErr (msg : String)
  deriving DecidableEq, Repr

/-- `HuddleApp._fetch_and_apply_data` up to the UI hand-off: fetch, parse,
convert every caught failure (including an empty parse) into
`(None, message)`, success into `(parsed, "")`.  An uncaught exception
(`TypeError`/`AttributeError` inside parsing) escapes the worker. -/
def fetch_and_apply_data (fr : FetchResult) :
    Except PyErr (Option (List (Json × TeamRec)) × String) :=
  match fr with
  | .netErr m => .ok (none, "Live fetch failed: " ++ m)
  | .decodeErr m => .ok (none, "Live fetch failed: " ++ m)
  | .ok payload =>
    match parse_standings payload with
    | .ok parsed =>
      if parsed.isEmpty then
        .ok (none, "Live fetch failed: Standings payload missing expected fields.")
      else .ok (some parsed, "")
    | .error (.valueError m) => .ok (none, "Live fetch failed: " ++ m)
    | .error e => .error e

/-- The cache update of `HuddleApp._apply_new_data`: a truthy parse result
replaces the year's entry, otherwise the cache is untouched. -/
def apply_new_data (cache : List (Int × List (Json × TeamRec))) (year : Int)
    (parsed : Option (List (Json × TeamRec))) : List (Int × List (Json × TeamRec)) :=
  match parsed with
  | some p => if p.isEmpty then cache else insertYear cache year p
  | none => cache

/-- One whole background fetch-and-apply cycle for a season year: the
worker of `_fetch_and_apply_data` followed by the `_apply_new_data`
callback.  If an uncaught exception kills the worker thread, the callback
never runs and the cache is untouched (and no message is produced). -/
def fetch_cycle (cache : List (Int × List (Json × TeamRec))) (year : Int)
    (fr : FetchResult) : List (Int × List (Json × TeamRec)) × String :=
  match fetch_and_apply_data fr with
  | .ok pm => (apply_new_data cache year pm.1, pm.2)
  | .error _ => (cache, "")

/-- Python `a or b` for optional ints (`0` is falsy). -/
def orPyInt (a b : Option Int) : Option Int :=
  match a with
  | some n => if n ≠ 0 then some n else b
  | none => b

/-- `year or self._get_selected_year() or self.current_year`. -/
def resolveFetchYear (year selected : Option Int) (current : Int) : Int :=
  match orPyInt year selected with
  | some n => if n ≠ 0 then n else current
  | none => current

/-- The shared state consulted by `HuddleApp._start_background_fetch`. -/
structure StandingsFetchState where
  team_data_by_year : List (Int × List (Json × TeamRec))
  active_fetches : List Int
  deriving DecidableEq, Repr

/-- `HuddleApp._start_background_fetch`: skip if the year is already
cached (unless forced), skip unconditionally if a fetch for the year is
already in flight, otherwise mark it in flight and spawn the worker.  The
boolean result records whether a worker thread was spawned. -/
def start_background_fetch (st : StandingsFetchState) (year selected : Option Int)
    (current : Int) (force : Bool) : StandingsFetchState × Bool :=
  let fetch_year := resolveFetchYear year selected current
  if !force && (lookupYear st.team_data_by_year fetch_year).isSome then (st, false)
  else if pyIn fetch_year st.active_fetches then (st, false)
  else ({ st with active_fetches := fetch_year :: st.active_fetches }, true)

/-- The shared state consulted by `HuddleApp._start_roster_fetch`. -/
structure RosterState where
  roster_data_by_year : List (Int × List (String × List Json))
  roster_errors_by_year : List (Int × List (String × String))
  active_roster_fetches : List (Int × String)
  deriving DecidableEq, Repr

/-- `HuddleApp._get_roster_for_team`. -/
def get_roster_for_team (st : RosterState) (team_id : String) (year : Int) :
    Option (List Json) :=
  match lookupYear st.roster_data_by_year year with
  | some m => sLookup m team_id
  | none => none

/-- `HuddleApp._get_roster_error`. -/
def get_roster_error (st : RosterState) (team_id : String) (year : Int) : Option String :=
  match lookupYear st.roster_errors_by_year year with
  | some m => sLookup m team_id
  | none => none

/-- `HuddleApp._start_roster_fetch`: skip on an empty team id, skip if a
roster or error is cached (unless forced), skip unconditionally if a fetch
for the `(year, team_id)` key is already in flight, otherwise mark it in
flight and spawn the worker. -/
def start_roster_fetch (st : RosterState) (team_id : String) (year : Int)
    (force : Bool) : RosterState × Bool :=
  if team_id.isEmpty then (st, false)
  else if !force && (get_roster_for_team st team_id year).isSome then (st, false)
  else if !force && (match get_roster_error st team_id year with
      | some s => !s.isEmpty
      | none => false) then (st, false)
  else if pyIn (year, team_id) st.active_roster_fetches then (st, false)
  else ({ st with active_roster_fetches := (year, team_id) :: st.active_roster_fetches }, true)

/-- Python numeric value for subtraction (ints; bools count as 0/1). -/
def pyNumVal : Json → Option Int
  | .num n => some n
  | .bool b => some (if b then 1 else 0)
  | _ => none

/-- `pf - pa if pf is not None and pa is not None else None` from
`HuddleApp.display_selected_team`. -/
def pointDifferential (pf pa : Json) : Except PyErr Json :=
  if pf = Json.null ∨ pa = Json.null then .ok .null
  else
    match pyNumVal pf, pyNumVal pa with
    | some a, some b => .ok (.num (a - b))
    | _, _ => .error (.typeError "unsupported operand types for subtraction")

/-! ### General lemmas about the embedded operations -/

theorem exceptBind_ok {e a b : Type} {m : Except e a} {f : a → Except e b} {v : b}
    (h : (m >>= f) = .ok v) : ∃ x, m = .ok x ∧ f x = .ok v := by
  cases m with
  | ok x => exact ⟨x, rfl, h⟩
  | error err => simp [Bind.bind, Except.bind] at h

theorem exceptMap_ok {e a b : Type} {m : Except e a} {f : a → b} {v : b}
    (h : (m.map f) = .ok v) : ∃ x, m = .ok x ∧ f x = v := by
  cases m with
  | ok x =>
    refine ⟨x, rfl, ?_⟩
    simpa [Except.map] using h
  | error err => simp [Except.map] at h

/-- Inversion for a successful `entryCoreRest`. -/
theorem entryCoreRest_ok_inv {efs tfs : List (String × Json)} {team_id conference : Json}
    {core : EntryCore} (h : entryCoreRest efs tfs team_id conference = .ok core) :
    ∃ dn items triples wins losses ties note,
      displayNameOf tfs = .ok dn ∧
      dn.hashable = true ∧
      iterStats (jGetD efs "stats" (.arr [])) = .ok items ∧
      statTriples items = .ok triples ∧
      pyInt (intArgOf triples "wins") = .ok wins ∧
      pyInt (intArgOf triples "losses") = .ok losses ∧
      pyInt (intArgOf triples "ties") = .ok ties ∧
      noteOf efs = .ok note ∧
      core = coreOf dn conference triples wins losses ties note team_id := by
  rw [entryCoreRest] at h
  obtain ⟨dn, hdn, h⟩ := exceptBind_ok h
  try dsimp only at h
  split at h
  case isTrue hh =>
    obtain ⟨items, hit, h⟩ := exceptBind_ok h
    try dsimp only at h
    obtain ⟨triples, htr, h⟩ := exceptBind_ok h
    try dsimp only at h
    obtain ⟨wins, hw, h⟩ := exceptBind_ok h
    try dsimp only at h
    obtain ⟨losses, hl, h⟩ := exceptBind_ok h
    try dsimp only at h
    obtain ⟨ties, ht, h⟩ := exceptBind_ok h
    try dsimp only at h
    obtain ⟨note, hn, h⟩ := exceptBind_ok h
    try dsimp only at h
    refine ⟨dn, items, triples, wins, losses, ties, note, hdn, hh, hit, htr, hw, hl, ht, hn, ?_⟩
    simpa [Pure.pure, Except.pure] using h.symm
  case isFalse hh =>
    simp at h

/-- Construction of a successful `entryCoreRest` from its components. -/
theorem entryCoreRest_eq_ok {efs tfs : List (String × Json)} {team_id conference : Json}
    {dn : Json} {items : List Json} {triples : List (Json × Json × Json)}
    {wins losses ties : Int} {note : Json}
    (hdn : displayNameOf tfs = .ok dn) (hh : dn.hashable = true)
    (hit : iterStats (jGetD efs "stats" (.arr [])) = .ok items)
    (htr : statTriples items = .ok triples)
    (hw : pyInt (intArgOf triples "wins") = .ok wins)
    (hl : pyInt (intArgOf triples "losses") = .ok losses)
    (ht : pyInt (intArgOf triples "ties") = .ok ties)
    (hn : noteOf efs = .ok note) :
    entryCoreRest efs tfs team_id conference =
      .ok (coreOf dn conference triples wins losses ties note team_id) := by
  rw [entryCoreRest, hdn]
  simp [Bind.bind, Except.bind, hh, hit, htr, hw, hl, ht, hn, Pure.pure, Except.pure]

/-- Inversion for a successful `normalizeEntry`. -/
theorem normalizeEntry_ok_inv {entry conference : Json} {kv : Json × TeamRec}
    (h : normalizeEntry entry conference = .ok kv) :
    ∃ efs tfs core,
      entry = .obj efs ∧
      teamFieldsOf efs = .ok tfs ∧
      entryCoreRest efs tfs (nGet tfs "id") conference = .ok core ∧
      kv = normalizeFromCore core := by
  cases entry with
  | obj efs =>
    rw [normalizeEntry] at h
    obtain ⟨tfs, htfs, h⟩ := exceptBind_ok h
    try dsimp only at h
    obtain ⟨core, hcore, h⟩ := exceptMap_ok h
    exact ⟨efs, tfs, core, rfl, htfs, hcore, h.symm⟩
  | null => simp [normalizeEntry] at h
  | bool b => simp [normalizeEntry] at h
  | num n => simp [normalizeEntry] at h
  | str s => simp [normalizeEntry] at h
  | arr xs => simp [normalizeEntry] at h

/-- Construction of a successful `normalizeEntry` from its components. -/
theorem normalizeEntry_eq_ok {efs tfs : List (String × Json)} {conference : Json}
    {core : EntryCore} (htfs : teamFieldsOf efs = .ok tfs)
    (hcore : entryCoreRest efs tfs (nGet tfs "id") conference = .ok core) :
    normalizeEntry (.obj efs) conference = .ok (normalizeFromCore core) := by
  rw [normalizeEntry, htfs]
  simp [Bind.bind, Except.bind, hcore, Except.map]

/-! ### The walker/parse pipeline as de-duplication plus dict folding -/

/-- The team-id extraction performed at the top of the `parse_standings`
loop body for one collected pair. -/
def entryTidE : Json → Except PyErr Json
  | .obj efs => (teamFieldsOf efs).map (fun tfs => nGet tfs "id")
  | _ => .error (.attributeError "object has no attribute get")

/-- Total version of `entryTidE` for use in statements (entries on which
the loop would raise get a junk `null` id). -/
def entryTid (p : Json × Json) : Json :=
  match entryTidE p.1 with
  | .ok t => t
  | .error _ => .null

def defaultCore : EntryCore :=
  { display_name := .null, conference := .null, meta_conference := .null,
    meta_division := .null, wins := 0, losses := 0, ties := 0, points_for := .null,
    points_against := .null, win_pct := .null, streak := .null,
    conference_rank := .null, note := .null, team_id := .null }

/-- Total version of `normalizeEntry` for use in statements. -/
def normKV (p : Json × Json) : Json × TeamRec :=
  match normalizeEntry p.1 p.2 with
  | .ok kv => kv
  | .error _ => normalizeFromCore defaultCore

/-- A collected pair that the `parse_standings` loop handles without
raising and de-duplicates: its entry normalizes and its team id is truthy
and hashable. -/
def entryOkB (p : Json × Json) : Bool :=
  match normalizeEntry p.1 p.2 with
  | .ok _ => (entryTid p).truthy && (entryTid p).hashable
  | .error _ => false

/-- First-seen-wins de-duplication of collected pairs by team id, mirroring
the seen-set of `parse_standings`. -/
def dedupFirstFrom : List (Json × Json) → List Json → List (Json × Json)
  | [], _ => []
  | p :: rest, seen =>
    if (entryTid p).truthy then
      if jElem (entryTid p) seen then dedupFirstFrom rest seen
      else p :: dedupFirstFrom rest (seen ++ [entryTid p])
    else p :: dedupFirstFrom rest seen

theorem jElem_iff (x : Json) (l : List Json) : jElem x l = true ↔ x ∈ l := by
  simp [jElem, List.any_eq_true]

theorem entryOkB_truthy {p : Json × Json} (h : entryOkB p = true) :
    (entryTid p).truthy = true := by
  rw [entryOkB] at h
  cases hn : normalizeEntry p.1 p.2 with
  | ok kv => rw [hn] at h; simp only [Bool.and_eq_true] at h; exact h.1
  | error e => rw [hn] at h; simp at h

theorem jGet_dictInsert_ne {α : Type} (l : List (Json × α)) (k k' : Json) (v : α)
    (hne : k' ≠ k) : jGet (dictInsert l k v) k' = jGet l k' := by
  induction l with
  | nil =>
    have : ¬ (k = k') := fun hh => hne hh.symm
    simp [dictInsert, jGet, this]
  | cons kv0 rest ih =>
    obtain ⟨k0, v0⟩ := kv0
    by_cases h0 : k0 = k
    · subst h0
      have : ¬ (k0 = k') := fun hh => hne hh.symm
      simp [dictInsert, jGet, this]
    · simp only [dictInsert, if_neg h0]
      by_cases h1 : k0 = k'
      · simp [jGet, h1]
      · simp [jGet, h1, ih]

theorem dictInsert_absent {α : Type} (l : List (Json × α)) (k : Json) (v : α)
    (h : jGet l k = none) : dictInsert l k v = l ++ [(k, v)] := by
  induction l with
  | nil => simp [dictInsert]
  | cons kv0 rest ih =>
    obtain ⟨k0, v0⟩ := kv0
    by_cases h0 : k0 = k
    · simp [jGet, h0] at h
    · simp only [jGet, if_neg h0] at h
      simp [dictInsert, if_neg h0, ih h]

theorem jGet_append_none {α : Type} (l1 l2 : List (Json × α)) (k : Json)
    (h : jGet l1 k = none) : jGet (l1 ++ l2) k = jGet l2 k := by
  induction l1 with
  | nil => simp
  | cons kv0 rest ih =>
    obtain ⟨k0, v0⟩ := kv0
    by_cases h0 : k0 = k
    · simp [jGet, h0] at h
    · simp only [jGet, if_neg h0] at h
      simp [jGet, if_neg h0, ih h]

theorem foldl_dictInsert_nodup {α : Type} (kvs : List (Json × α)) : ∀ acc,
    (kvs.map Prod.fst).Nodup → (∀ kv ∈ kvs, jGet acc kv.1 = none) →
    kvs.foldl (fun m kv => dictInsert m kv.1 kv.2) acc = acc ++ kvs := by
  induction kvs with
  | nil => intro acc _ _; simp
  | cons kv rest ih =>
    intro acc hnd hab
    simp only [List.foldl_cons]
    have habs : jGet acc kv.1 = none := hab kv (List.mem_cons_self _ _)
    rw [show dictInsert acc kv.1 kv.2 = acc ++ [kv] by
      rw [dictInsert_absent acc kv.1 kv.2 habs]]
    rw [ih (acc ++ [kv]) (by simpa using (List.nodup_cons.mp (by simpa using hnd)).2) ?_]
    · simp
    · intro kv' hkv'
      rw [jGet_append_none acc [kv] kv'.1 (hab kv' (List.mem_cons_of_mem _ hkv'))]
      have hne : kv.1 ≠ kv'.1 := by
        have h1 : kv.1 ∉ rest.map Prod.fst := (List.nodup_cons.mp (by simpa using hnd)).1
        intro hcontra
        exact h1 (hcontra ▸ List.mem_map_of_mem Prod.fst hkv')
      simp [jGet, hne]

theorem jGet_mem_nodup {α : Type} (kvs : List (Json × α)) (k : Json) (v : α)
    (hnd : (kvs.map Prod.fst).Nodup) (hmem : (k, v) ∈ kvs) : jGet kvs k = some v := by
  induction kvs with
  | nil => simp at hmem
  | cons kv0 rest ih =>
    obtain ⟨k0, v0⟩ := kv0
    rcases List.mem_cons.mp hmem with h | h
    · obtain ⟨h1, h2⟩ := Prod.mk.injEq .. ▸ h.symm
      simp [jGet, h1.symm, h2]
    · have hne : k0 ≠ k := by
        have h1 : k0 ∉ rest.map Prod.fst := (List.nodup_cons.mp (by simpa using hnd)).1
        intro hcontra
        exact h1 (hcontra ▸ List.mem_map_of_mem Prod.fst h)
      simp only [jGet, if_neg hne]
      exact ih (by simpa using (List.nodup_cons.mp (by simpa using hnd)).2) h

/-- The `parse_standings` loop over well-behaved collected pairs is: keep
the first occurrence of every team id, normalize those survivors, and
insert them into the result dict in order. -/
theorem parseLoop_eq : ∀ (pairs : List (Json × Json)) (seen : List Json)
    (acc : List (Json × TeamRec)), (∀ p ∈ pairs, entryOkB p = true) →
    parseLoop pairs seen acc =
      .ok (((dedupFirstFrom pairs seen).map normKV).foldl
        (fun m kv => dictInsert m kv.1 kv.2) acc) := by
  intro pairs
  induction pairs with
  | nil => intro seen acc _; simp [parseLoop, dedupFirstFrom]
  | cons p rest ih =>
    intro seen acc hwf
    have hp : entryOkB p = true := hwf p (List.mem_cons_self _ _)
    have hrest : ∀ q ∈ rest, entryOkB q = true :=
      fun q hq => hwf q (List.mem_cons_of_mem _ hq)
    obtain ⟨entry, conference⟩ := p
    rw [entryOkB] at hp
    cases hn : normalizeEntry entry conference with
    | error e => rw [hn] at hp; simp at hp
    | ok kv =>
      rw [hn] at hp
      obtain ⟨efs, tfs, core, hent, htfs, hcore, hkv⟩ := normalizeEntry_ok_inv hn
      subst hent
      have htid : entryTid (Json.obj efs, conference) = nGet tfs "id" := by
        simp [entryTid, entryTidE, htfs, Except.map]
      simp only [Bool.and_eq_true] at hp
      obtain ⟨htr, hhash⟩ := hp
      rw [htid] at htr hhash
      have hnk : normKV (Json.obj efs, conference) = normalizeFromCore core := by
        simp [normKV, hn, hkv]
      by_cases hmem : jElem (nGet tfs "id") seen = true
      · rw [show parseLoop ((Json.obj efs, conference) :: rest) seen acc
            = parseLoop rest seen acc by
          simp [parseLoop, htfs, Bind.bind, Except.bind, htr, hhash, hmem]]
        rw [ih seen acc hrest]
        rw [show dedupFirstFrom ((Json.obj efs, conference) :: rest) seen
            = dedupFirstFrom rest seen by
          simp [dedupFirstFrom, htid, htr, hmem]]
      · rw [show parseLoop ((Json.obj efs, conference) :: rest) seen acc
            = parseLoop rest (seen ++ [nGet tfs "id"])
                (dictInsert acc (normalizeFromCore core).1 (normalizeFromCore core).2) by
          simp [parseLoop, htfs, Bind.bind, Except.bind, htr, hhash, hmem, hcore, Except.map]]
        rw [ih (seen ++ [nGet tfs "id"])
          (dictInsert acc (normalizeFromCore core).1 (normalizeFromCore core).2) hrest]
        rw [show dedupFirstFrom ((Json.obj efs, conference) :: rest) seen
            = (Json.obj efs, conference) :: dedupFirstFrom rest (seen ++ [nGet tfs "id"]) by
          simp [dedupFirstFrom, htid, htr, hmem]]
        simp [hnk]

/-- One non-duplicate step of the `parse_standings` loop. -/
theorem parseLoop_cons_new {efs tfs : List (String × Json)} {conference : Json}
    {seen : List Json} {acc : List (Json × TeamRec)} {core : EntryCore}
    (htfs : teamFieldsOf efs = .ok tfs)
    (htr : (nGet tfs "id").truthy = true)
    (hh : (nGet tfs "id").hashable = true)
    (hmem : jElem (nGet tfs "id") seen = false)
    (hcore : entryCoreRest efs tfs (nGet tfs "id") conference = .ok core)
    (rest : List (Json × Json)) :
    parseLoop ((Json.obj efs, conference) :: rest) seen acc
      = parseLoop rest (seen ++ [nGet tfs "id"])
          (dictInsert acc (normalizeFromCore core).1 (normalizeFromCore core).2) := by
  simp [parseLoop, htfs, Bind.bind, Except.bind, htr, hh, hmem, hcore, Except.map]

/-- The number of first-seen survivors equals the number of distinct team
ids not yet seen. -/
theorem dedupFirstFrom_length (pairs : List (Json × Json)) : ∀ (seen : List Json),
    (∀ p ∈ pairs, (entryTid p).truthy = true) →
    (dedupFirstFrom pairs seen).length =
      ((pairs.map entryTid).toFinset \ seen.toFinset).card := by
  induction pairs with
  | nil => intro seen _; simp [dedupFirstFrom]
  | cons p rest ih =>
    intro seen hall
    have htr := hall p (List.mem_cons_self _ _)
    have hrest : ∀ q ∈ rest, (entryTid q).truthy = true :=
      fun q hq => hall q (List.mem_cons_of_mem _ hq)
    simp only [dedupFirstFrom, if_pos htr]
    by_cases hmem : jElem (entryTid p) seen = true
    · rw [if_pos hmem, ih seen hrest, List.map_cons, List.toFinset_cons]
      have ha : entryTid p ∈ seen.toFinset := by
        rw [List.mem_toFinset]; exact (jElem_iff _ _).mp hmem
      rw [Finset.insert_sdiff_of_mem _ ha]
    · rw [if_neg hmem, List.length_cons, ih (seen ++ [entryTid p]) hrest,
        List.map_cons, List.toFinset_cons]
      have ha : entryTid p ∉ seen.toFinset := by
        rw [List.mem_toFinset]
        intro hc; exact hmem ((jElem_iff _ _).mpr hc)
      have h1 : (seen ++ [entryTid p]).toFinset = insert (entryTid p) seen.toFinset := by
        ext x
        simp only [List.toFinset_append, Finset.mem_union, List.mem_toFinset,
          Finset.mem_insert, List.mem_singleton, List.toFinset_cons,
          List.toFinset_nil, Finset.mem_singleton, insert_emptyc_eq]
        tauto
      rw [h1]
      have h2 : insert (entryTid p) ((rest.map entryTid).toFinset) \ seen.toFinset
          = insert (entryTid p)
            ((rest.map entryTid).toFinset \ insert (entryTid p) seen.toFinset) := by
        ext x
        simp only [Finset.mem_sdiff, Finset.mem_insert]
        have ha' : entryTid p ∉ seen.toFinset := ha
        constructor
        · rintro ⟨hx | hx, hnt⟩
          · exact Or.inl hx
          · by_cases hxa : x = entryTid p
            · exact Or.inl hxa
            · exact Or.inr ⟨hx, by tauto⟩
        · rintro (hx | ⟨hx, hnt⟩)
          · exact ⟨Or.inl hx, hx ▸ ha'⟩
          · exact ⟨Or.inr hx, by tauto⟩
      rw [h2, Finset.card_insert_of_not_mem (by simp)]

/-! ### Concrete inputs used by witnesses and counterexamples -/

/-- A Bills entry (id 1, 9-7-1). -/
def entryBills : Json := .obj [
  ("team", .obj [("id", .str "1"), ("displayName", .str "Buffalo Bills")]),
  ("stats", .arr [
    .obj [("name", .str "wins"), ("value", .num 9)],
    .obj [("name", .str "losses"), ("value", .num 7)],
    .obj [("name", .str "ties"), ("value", .num 1)]])]

/-- The team fields of the Lions entry. -/
def lionsTfs : List (String × Json) := [("id", .str "2"), ("displayName", .str "Detroit Lions")]

/-- The fields of a Lions entry (id 2, 12-5, seed 1). -/
def lionsEfs : List (String × Json) := [
  ("team", .obj lionsTfs),
  ("stats", .arr [
    .obj [("name", .str "wins"), ("value", .num 12)],
    .obj [("name", .str "losses"), ("value", .num 5)],
    .obj [("name", .str "ties"), ("value", .num 0)],
    .obj [("name", .str "playoffSeed"), ("value", .num 1)]])]

/-- A Lions entry (id 2, 12-5). -/
def entryLions : Json := .obj lionsEfs

/-- A nested payload with two conference wrappers in which the Bills entry
appears under both ancestors. -/
def payloadNested : Json := .obj [("children", .arr [
  .obj [("abbreviation", .str "AFC"), ("standings", .obj [("entries", .arr [entryBills])])],
  .obj [("abbreviation", .str "NFC"),
    ("standings", .obj [("entries", .arr [entryLions, entryBills])])]])]

/-- The pairs the walker collects from `payloadNested`. -/
def pairsNested : List (Json × Json) :=
  [(entryBills, .str "AFC"), (entryLions, .str "NFC"), (entryBills, .str "NFC")]

/-- Two entries with distinct team ids but one shared display name. -/
def cexEntryA : Json := .obj [
  ("team", .obj [("id", .str "1"), ("displayName", .str "Same Team")]),
  ("stats", .arr [.obj [("name", .str "wins"), ("value", .num 1)]])]

def cexEntryB : Json := .obj [
  ("team", .obj [("id", .str "2"), ("displayName", .str "Same Team")]),
  ("stats", .arr [.obj [("name", .str "wins"), ("value", .num 2)]])]

def cexSameNamePayload : Json := .obj [("entries", .arr [cexEntryA, cexEntryB])]

/-- The number of records `parse_standings` produces (zero if it raises). -/
def parsedCount (payload : Json) : Nat :=
  match parse_standings payload with
  | .ok m => m.length
  | .error _ => 0

/-- The number of distinct team ids among the collected entries. -/
def collectedIdCount (payload : Json) : Nat :=
  match collect_entries payload .null with
  | .ok ps => (ps.map entryTid).toFinset.card
  | .error _ => 0

/-! ### Claim C1 -/

/-- C1 (amended).  For every JSON tree from which the walker collects
pairs whose entries all normalize with truthy, hashable team ids, and
whose first-seen-per-id survivors have pairwise distinct display names,
`parse_standings` over `_collect_entries` produces exactly one normalized
record per distinct team identifier — a team appearing under two ancestors
is counted once, and the first-seen occurrence wins (its normalization,
including its stats and conference label, is the record kept).  (The
original claim, which promised exactly N records without the distinct
display-name proviso, is refuted by `C1_counterexample_same_display_name`:
the result dict is keyed by display name, so two ids sharing a display
name yield a single record.) -/
theorem C1_parse_walk_exact_count (payload : Json) (pairs : List (Json × Json))
    (hc : collect_entries payload .null = .ok pairs)
    (hwf : ∀ p ∈ pairs, entryOkB p = true)
    (hinj : (((dedupFirstFrom pairs []).map normKV).map Prod.fst).Nodup) :
    parse_standings payload = .ok ((dedupFirstFrom pairs []).map normKV) ∧
    ((dedupFirstFrom pairs []).map normKV).length = (pairs.map entryTid).toFinset.card ∧
    (∀ p ∈ dedupFirstFrom pairs [],
      jGet ((dedupFirstFrom pairs []).map normKV) (normKV p).1 = some (normKV p).2) := by
  have hparse : parse_standings payload = .ok ((dedupFirstFrom pairs []).map normKV) := by
    rw [parse_standings, hc]
    simp only [Bind.bind, Except.bind]
    rw [parseLoop_eq pairs [] [] hwf]
    rw [foldl_dictInsert_nodup _ [] hinj (by intro kv _; simp [jGet])]
    simp
  refine ⟨hparse, ?_, ?_⟩
  · rw [List.length_map]
    have := dedupFirstFrom_length pairs [] (fun p hp => entryOkB_truthy (hwf p hp))
    simpa using this
  · intro p hp
    exact jGet_mem_nodup _ _ _ hinj (List.mem_map_of_mem normKV hp)

/-- C1, counterexample to the claim as stated: a payload with N = 2 team
entries that are distinct by team identifier produces 1 normalized record,
not 2, because both entries resolve to the same display name. -/
theorem C1_counterexample_same_display_name :
    parsedCount cexSameNamePayload = 1 ∧ collectedIdCount cexSameNamePayload = 2 := by
  decide

/-- C1, witness: on the nested payload with a duplicated Bills entry the
amended theorem applies and yields exactly 2 records (2 distinct ids among
3 collected pairs). -/
theorem C1_witness :
    parse_standings payloadNested = .ok ((dedupFirstFrom pairsNested []).map normKV) ∧
    ((dedupFirstFrom pairsNested []).map normKV).length = 2 := by
  have h := C1_parse_walk_exact_count payloadNested pairsNested (by decide) (by decide)
    (by decide)
  refine ⟨h.1, ?_⟩
  rw [h.2.1]
  decide

/-! ### Claim C9 -/

/-- C9.  Normalized standings are keyed by display name, not by team
identifier: for a payload holding two entries with distinct (truthy,
hashable) team identifiers whose normalizations share one display-name
key, the output mapping holds a single record under that key, and the
later-walked entry's record overwrites the earlier one's — even though
de-duplication by identifier is first-seen wins. -/
theorem C9_last_seen_wins_by_display_name (e1 e2 t1 t2 k : Json) (r1 r2 : TeamRec)
    (ht1 : entryTidE e1 = .ok t1) (ht2 : entryTidE e2 = .ok t2)
    (htr1 : t1.truthy = true) (hh1 : t1.hashable = true)
    (htr2 : t2.truthy = true) (hh2 : t2.hashable = true)
    (hne : t1 ≠ t2)
    (h1 : normalizeEntry e1 .null = .ok (k, r1))
    (h2 : normalizeEntry e2 .null = .ok (k, r2)) :
    parse_standings (.obj [("entries", .arr [e1, e2])]) = .ok [(k, r2)] := by
  obtain ⟨efs1, tfs1, core1, he1, htfs1, hcore1, hkv1⟩ := normalizeEntry_ok_inv h1
  obtain ⟨efs2, tfs2, core2, he2, htfs2, hcore2, hkv2⟩ := normalizeEntry_ok_inv h2
  subst he1; subst he2
  have hcol : collect_entries (.obj [("entries", .arr [.obj efs1, .obj efs2])]) .null
      = .ok [(.obj efs1, .null), (.obj efs2, .null)] := rfl
  rw [parse_standings, hcol]
  simp only [Bind.bind, Except.bind]
  have hid1 : nGet tfs1 "id" = t1 := by
    simp only [entryTidE, htfs1, Except.map] at ht1
    exact Except.ok.inj ht1
  have hid2 : nGet tfs2 "id" = t2 := by
    simp only [entryTidE, htfs2, Except.map] at ht2
    exact Except.ok.inj ht2
  have htr1a : (nGet tfs1 "id").truthy = true := by rw [hid1]; exact htr1
  have hh1a : (nGet tfs1 "id").hashable = true := by rw [hid1]; exact hh1
  have htr2a : (nGet tfs2 "id").truthy = true := by rw [hid2]; exact htr2
  have hh2a : (nGet tfs2 "id").hashable = true := by rw [hid2]; exact hh2
  have hmem1 : jElem (nGet tfs1 "id") [] = false := by simp [jElem]
  rw [parseLoop_cons_new htfs1 htr1a hh1a hmem1 hcore1]
  rw [← hkv1]
  have hne12 : ¬ (nGet tfs1 "id" = nGet tfs2 "id") := by
    rw [hid1, hid2]; exact hne
  have hmem2 : jElem (nGet tfs2 "id") ([] ++ [nGet tfs1 "id"]) = false := by
    simp [jElem, hne12]
  rw [parseLoop_cons_new htfs2 htr2a hh2a hmem2 hcore2]
  rw [← hkv2]
  simp [parseLoop, dictInsert]

/-- C9's record for the second same-name entry. -/
def c9rec2 : TeamRec :=
  { record := "3-0", wins := 3, losses := 0, ties := 0,
    points_for := .null, points_against := .null, win_pct := .null, streak := .null,
    note := .null, conference := .null, division := .null, conference_rank := .null,
    team_id := .str "8" }

def c9e1 : Json := .obj [
  ("team", .obj [("id", .str "7"), ("displayName", .str "Same Club")]),
  ("stats", .arr [.obj [("name", .str "wins"), ("value", .num 2)]])]

def c9e2 : Json := .obj [
  ("team", .obj [("id", .str "8"), ("displayName", .str "Same Club")]),
  ("stats", .arr [.obj [("name", .str "wins"), ("value", .num 3)]])]

/-- C9, witness: two concrete same-name entries with ids 7 and 8 produce
the single record of the second entry. -/
theorem C9_witness :
    parse_standings (.obj [("entries", .arr [c9e1, c9e2])])
      = .ok [(.str "Same Club", c9rec2)] := by
  exact C9_last_seen_wins_by_display_name c9e1 c9e2 (.str "7") (.str "8")
    (.str "Same Club")
    { record := "2-0", wins := 2, losses := 0, ties := 0,
      points_for := .null, points_against := .null, win_pct := .null, streak := .null,
      note := .null, conference := .null, division := .null, conference_rank := .null,
      team_id := .str "7" }
    c9rec2 (by decide) (by decide) (by decide) (by decide) (by decide) (by decide)
    (by decide) (by decide) (by decide)

theorem pyIn_iff {a : Type} [DecidableEq a] (x : a) (l : List a) :
    pyIn x l = true ↔ x ∈ l := by
  simp [pyIn, List.any_eq_true]

theorem append_ne_empty_of_left_ne (s t : String) (h : s.length ≠ 0) : s ++ t ≠ "" := by
  intro hc
  have hlen := congrArg String.length hc
  rw [String.length_append] at hlen
  simp at hlen
  omega

/-! ### Claim C2 -/

/-- C2.  For every season year and fetch outcome: if the fetch-and-parse
cycle fails — network error, decode error, or zero teams parsed — the
cached standings mapping is left unchanged and a non-empty error message
is produced; conversely, the cache changes only by installing, under that
year, a complete non-empty parse result. -/
theorem C2_failed_fetch_keeps_cache (cache : List (Int × List (Json × TeamRec)))
    (year : Int) (fr : FetchResult) :
    (((∃ m, fr = .netErr m) ∨ (∃ m, fr = .decodeErr m) ∨
      (∃ payload, fr = .ok payload ∧ parse_standings payload = .ok [])) →
      (fetch_cycle cache year fr).1 = cache ∧ (fetch_cycle cache year fr).2 ≠ "") ∧
    ((fetch_cycle cache year fr).1 ≠ cache →
      ∃ payload parsed, fr = .ok payload ∧ parse_standings payload = .ok parsed ∧
        parsed ≠ [] ∧ (fetch_cycle cache year fr).1 = insertYear cache year parsed) := by
  constructor
  · rintro (⟨m, rfl⟩ | ⟨m, rfl⟩ | ⟨payload, rfl, hp⟩)
    · exact ⟨by simp [fetch_cycle, fetch_and_apply_data, apply_new_data],
        by simp only [fetch_cycle, fetch_and_apply_data]
           exact append_ne_empty_of_left_ne _ _ (by decide)⟩
    · exact ⟨by simp [fetch_cycle, fetch_and_apply_data, apply_new_data],
        by simp only [fetch_cycle, fetch_and_apply_data]
           exact append_ne_empty_of_left_ne _ _ (by decide)⟩
    · refine ⟨by simp [fetch_cycle, fetch_and_apply_data, hp, apply_new_data], ?_⟩
      have hmsg : (fetch_cycle cache year (FetchResult.ok payload)).2
          = "Live fetch failed: Standings payload missing expected fields." := by
        simp [fetch_cycle, fetch_and_apply_data, hp]
      rw [hmsg]
      decide
  · intro hch
    cases fr with
    | netErr m => simp [fetch_cycle, fetch_and_apply_data, apply_new_data] at hch
    | decodeErr m => simp [fetch_cycle, fetch_and_apply_data, apply_new_data] at hch
    | ok payload =>
      cases hp : parse_standings payload with
      | ok parsed =>
        by_cases he : parsed.isEmpty
        · simp [fetch_cycle, fetch_and_apply_data, hp, he, apply_new_data] at hch
        · refine ⟨payload, parsed, rfl, hp, ?_, ?_⟩
          · intro hc; rw [hc] at he; simp at he
          · simp [fetch_cycle, fetch_and_apply_data, hp, he, apply_new_data]
      | error e =>
        cases e with
        | valueError m =>
          simp [fetch_cycle, fetch_and_apply_data, hp, apply_new_data] at hch
        | typeError m => simp [fetch_cycle, fetch_and_apply_data, hp] at hch
        | attributeError m => simp [fetch_cycle, fetch_and_apply_data, hp] at hch

/-- C2, witness: a concrete failed network fetch over an empty cache
leaves the cache empty and yields a non-empty message. -/
theorem C2_witness :
    (fetch_cycle [] 2024 (.netErr "connection refused")).1 = [] ∧
    (fetch_cycle [] 2024 (.netErr "connection refused")).2 ≠ "" := by
  have h := (C2_failed_fetch_keeps_cache [] 2024 (.netErr "connection refused")).1
    (Or.inl ⟨_, rfl⟩)
  exact ⟨h.1, h.2⟩

/-! ### Claim C5 -/

/-- C5 (amended).  For every season year (and `(year, team id)` roster
key), while a fetch for that key is in flight, any further fetch request
for the same key — forced or not — starts no second concurrent fetch: the
in-flight check suppresses it unconditionally, and the in-flight sets stay
duplicate-free.  (The original claim's exception, that a forced refresh is
not suppressed by the in-flight check, is refuted by
`C5_counterexample_forced_suppressed`: the `force` flag only bypasses the
cached-data checks, not the in-flight check.) -/
theorem C5_at_most_one_inflight_fetch (st : StandingsFetchState)
    (year selected : Option Int) (current : Int) (force : Bool)
    (rst : RosterState) (tid : String) (ryear : Int) (rforce : Bool) :
    (resolveFetchYear year selected current ∈ st.active_fetches →
      start_background_fetch st year selected current force = (st, false)) ∧
    ((ryear, tid) ∈ rst.active_roster_fetches →
      start_roster_fetch rst tid ryear rforce = (rst, false)) ∧
    (st.active_fetches.Nodup →
      (start_background_fetch st year selected current force).1.active_fetches.Nodup) ∧
    (rst.active_roster_fetches.Nodup →
      (start_roster_fetch rst tid ryear rforce).1.active_roster_fetches.Nodup) := by
  refine ⟨?_, ?_, ?_, ?_⟩
  · intro hmem
    have hin : pyIn (resolveFetchYear year selected current) st.active_fetches = true :=
      (pyIn_iff _ _).mpr hmem
    by_cases h1 : (!force && (lookupYear st.team_data_by_year
        (resolveFetchYear year selected current)).isSome) = true
    · simp [start_background_fetch, h1]
    · simp [start_background_fetch, h1, hin]
  · intro hmem
    have hin : pyIn (ryear, tid) rst.active_roster_fetches = true :=
      (pyIn_iff _ _).mpr hmem
    by_cases h0 : tid.isEmpty
    · simp [start_roster_fetch, h0]
    · by_cases h1 : (!rforce && (get_roster_for_team rst tid ryear).isSome) = true
      · simp [start_roster_fetch, h0, h1]
      · by_cases h2 : (!rforce && (match get_roster_error rst tid ryear with
            | some s => !s.isEmpty
            | none => false)) = true
        · simp [start_roster_fetch, h0, h1, h2]
        · simp [start_roster_fetch, h0, h1, h2, hin]
  · intro hnd
    by_cases h1 : (!force && (lookupYear st.team_data_by_year
        (resolveFetchYear year selected current)).isSome) = true
    · simpa [start_background_fetch, h1] using hnd
    · by_cases hin : pyIn (resolveFetchYear year selected current) st.active_fetches = true
      · simpa [start_background_fetch, h1, hin] using hnd
      · have hnm : resolveFetchYear year selected current ∉ st.active_fetches :=
          fun hm => hin ((pyIn_iff _ _).mpr hm)
        simp only [start_background_fetch, h1, hin]
        simpa using List.nodup_cons.mpr ⟨hnm, hnd⟩
  · intro hnd
    by_cases h0 : tid.isEmpty
    · simpa [start_roster_fetch, h0] using hnd
    · by_cases h1 : (!rforce && (get_roster_for_team rst tid ryear).isSome) = true
      · simpa [start_roster_fetch, h0, h1] using hnd
      · by_cases h2 : (!rforce && (match get_roster_error rst tid ryear with
            | some s => !s.isEmpty
            | none => false)) = true
        · simpa [start_roster_fetch, h0, h1, h2] using hnd
        · by_cases hin : pyIn (ryear, tid) rst.active_roster_fetches = true
          · simpa [start_roster_fetch, h0, h1, h2, hin] using hnd
          · have hnm : (ryear, tid) ∉ rst.active_roster_fetches :=
              fun hm => hin ((pyIn_iff _ _).mpr hm)
            simp only [start_roster_fetch, h0, h1, h2, hin]
            simpa using List.nodup_cons.mpr ⟨hnm, hnd⟩

/-- C5, counterexample to the claim as stated: even a forced refresh for a
key with an in-flight fetch is suppressed (no worker spawned), for both
the standings fetch and the roster fetch. -/
theorem C5_counterexample_forced_suppressed :
    start_background_fetch ⟨[], [2024]⟩ (some 2024) none 2024 true
      = (⟨[], [2024]⟩, false) ∧
    start_roster_fetch ⟨[], [], [(2024, "10")]⟩ "10" 2024 true
      = (⟨[], [], [(2024, "10")]⟩, false) := by
  decide

/-- C5, witness: concrete in-flight keys suppress unforced re-fetches. -/
theorem C5_witness :
    start_background_fetch ⟨[], [2024]⟩ (some 2024) none 2024 false
      = (⟨[], [2024]⟩, false) ∧
    start_roster_fetch ⟨[], [], [(2024, "10")]⟩ "10" 2024 false
      = (⟨[], [], [(2024, "10")]⟩, false) := by
  have h := C5_at_most_one_inflight_fetch ⟨[], [2024]⟩ (some 2024) none 2024 false
    ⟨[], [], [(2024, "10")]⟩ "10" 2024 false
  exact ⟨h.1 (by decide), h.2.1 (by decide)⟩

/-! ### Claim C4 -/

/-- C4.  For every standings entry that normalizes, the normalized record
string equals `"{wins}-{losses}"` when the normalized ties count is zero
and `"{wins}-{losses}-{ties}"` otherwise (the ties count is the `int` of
the `ties` stat, zero when the stat is absent).  The concrete instances
9-7-1 and 12-5 are checked in `C4_witness`. -/
theorem C4_record_string_format (entry conference k : Json) (rec : TeamRec)
    (h : normalizeEntry entry conference = .ok (k, rec)) :
    (rec.ties = 0 → rec.record = toString rec.wins ++ "-" ++ toString rec.losses) ∧
    (rec.ties ≠ 0 → rec.record = toString rec.wins ++ "-" ++ toString rec.losses
      ++ "-" ++ toString rec.ties) := by
  obtain ⟨efs, tfs, core, hent, htfs, hcore, hkv⟩ := normalizeEntry_ok_inv h
  have h2 : rec = (normalizeFromCore core).2 := by rw [← hkv]
  constructor
  · intro ht
    rw [h2] at ht ⊢
    simp only [normalizeFromCore] at ht ⊢
    simp [recordText, ht]
  · intro ht
    rw [h2] at ht ⊢
    simp only [normalizeFromCore] at ht ⊢
    simp [recordText, ht]

/-- The normalized Bills record (9-7-1). -/
def recBills : TeamRec :=
  { record := "9-7-1", wins := 9, losses := 7, ties := 1,
    points_for := .null, points_against := .null, win_pct := .null, streak := .null,
    note := .null, conference := .str "AFC", division := .str "AFC East",
    conference_rank := .null, team_id := .str "1" }

/-- The normalized Lions record (12-5, seed 1). -/
def recLions : TeamRec :=
  { record := "12-5", wins := 12, losses := 5, ties := 0,
    points_for := .null, points_against := .null, win_pct := .null, streak := .null,
    note := .null, conference := .str "NFC", division := .str "NFC North",
    conference_rank := .num 1, team_id := .str "2" }

/-- C4, witness: wins=9, losses=7, ties=1 yields `"9-7-1"`; wins=12,
losses=5, ties=0 yields `"12-5"`. -/
theorem C4_witness :
    normalizeEntry entryBills .null = .ok (.str "Buffalo Bills", recBills) ∧
    recBills.record = "9-7-1" ∧
    normalizeEntry entryLions .null = .ok (.str "Detroit Lions", recLions) ∧
    recLions.record = "12-5" := by
  refine ⟨by decide, ?_, by decide, ?_⟩
  · have h := (C4_record_string_format entryBills .null (.str "Buffalo Bills") recBills
      (by decide)).2 (by decide)
    rw [h]; decide
  · have h := (C4_record_string_format entryLions .null (.str "Detroit Lions") recLions
      (by decide)).1 (by decide)
    rw [h]; decide

/-! ### Claim C6 -/

/-- C6.  For every raw team entry that normalizes, the display name — the
key of the normalized record — is resolved in this order: the explicit
`displayName` field if truthy; else the concatenation of the `location`
and `name` fields (when it is non-empty after stripping); else the `name`
field if the key is present, else the literal `"Unknown Team"` — in
particular, an entry whose team dict lacks all three name fields
normalizes under the key `"Unknown Team"`. -/
theorem C6_display_name_resolution (efs tfs : List (String × Json)) (conference k : Json)
    (rec : TeamRec) (ht : teamFieldsOf efs = .ok tfs)
    (h : normalizeEntry (.obj efs) conference = .ok (k, rec)) :
    ((nGet tfs "displayName").truthy = true → k = nGet tfs "displayName") ∧
    (∀ s, (nGet tfs "displayName").truthy = false → joinedLocName tfs = .ok s →
      (s ≠ "" → k = .str s) ∧
      (s = "" → k = jGetD tfs "name" (.str "Unknown Team"))) ∧
    (jLookup tfs "displayName" = none → jLookup tfs "location" = none →
      jLookup tfs "name" = none → k = .str "Unknown Team") := by
  obtain ⟨efs2, tfs2, core, hent, htfs2, hcore, hkv⟩ := normalizeEntry_ok_inv h
  injection hent with hee
  subst hee
  rw [ht] at htfs2
  injection htfs2 with htt
  subst htt
  obtain ⟨dn, items, triples, wins, losses, ties, note, hdn, hhash, hit, htr,
    hw, hl, hti, hn, hco⟩ := entryCoreRest_ok_inv hcore
  have hk : k = dn := by
    have := congrArg Prod.fst hkv
    simp only [hco, normalizeFromCore, coreOf] at this
    exact this
  subst hk
  have main2 : ∀ s, (nGet tfs "displayName").truthy = false → joinedLocName tfs = .ok s →
      (s ≠ "" → k = .str s) ∧
      (s = "" → k = jGetD tfs "name" (.str "Unknown Team")) := by
    intro s hntr hjoin
    simp only [displayNameOf] at hdn
    rw [hntr] at hdn
    simp only [Bool.false_eq_true, if_false] at hdn
    obtain ⟨s2, hs2, hdn⟩ := exceptBind_ok hdn
    rw [hjoin] at hs2
    injection hs2 with hss
    subst hss
    constructor
    · intro hne
      have hb : s.isEmpty = false := by
        cases hE : s.isEmpty
        · rfl
        · exact absurd ((String.isEmpty_iff s).mp hE) hne
      have : (Json.str s).truthy = true := by
        simp [Json.truthy, hb]
      rw [this] at hdn
      simp only [if_true] at hdn
      exact (Except.ok.inj hdn).symm
    · intro heq
      subst heq
      have : (Json.str "").truthy = false := by decide
      rw [this] at hdn
      simp only [Bool.false_eq_true, if_false] at hdn
      exact (Except.ok.inj hdn).symm
  refine ⟨?_, main2, ?_⟩
  · intro htr2
    simp only [displayNameOf] at hdn
    rw [htr2] at hdn
    simp only [if_true] at hdn
    exact (Except.ok.inj hdn).symm
  · intro hd hlz hnz
    have h1 : (nGet tfs "displayName").truthy = false := by
      simp [nGet, jGetD, hd, Json.truthy]
    have hfilter : [nGet tfs "location", nGet tfs "name"].filter Json.truthy = [] := by
      simp [nGet, jGetD, hlz, hnz, Json.truthy]
    have h2 : joinedLocName tfs = .ok "" := by
      simp [joinedLocName, hfilter]
      rfl
    have h3 := (main2 "" h1 h2).2 rfl
    rw [h3]
    simp [jGetD, hnz]

/-- The normalized record of an entry with no name fields. -/
def c6rec : TeamRec :=
  { record := "0-0", wins := 0, losses := 0, ties := 0,
    points_for := .null, points_against := .null, win_pct := .null, streak := .null,
    note := .null, conference := .null, division := .null, conference_rank := .null,
    team_id := .str "9" }

/-- An entry whose team dict has an id but no name fields. -/
def c6entry : Json := .obj [("team", .obj [("id", .str "9")])]

/-- C6, witness: the entry lacking all three name sources normalizes under
the key `"Unknown Team"`. -/
theorem C6_witness :
    normalizeEntry c6entry .null = .ok (.str "Unknown Team", c6rec) ∧
    Json.str "Unknown Team" = .str "Unknown Team" := by
  refine ⟨by decide, ?_⟩
  exact (C6_display_name_resolution [("team", .obj [("id", .str "9")])]
    [("id", .str "9")] .null (.str "Unknown Team") c6rec (by decide) (by decide)).2.2
    (by decide) (by decide) (by decide)

/-! ### Claim C7 -/

/-- The `playoffSeed` raw value that the `parse_standings` loop extracts
from an entry's fields. -/
def seedOf (efs : List (String × Json)) : Except PyErr Json := do
  let items ← iterStats (jGetD efs "stats" (.arr []))
  let triples ← statTriples items
  pure ((dGetLast (statsMapOf triples) (.str "playoffSeed")).getD .null)

/-- C7.  Normalizing the conference seed never raises: `conferenceRankOf`
is a total function (the `TypeError`/`ValueError` of `int(...)` are caught
and degraded to null).  If the seed value is present and parseable as an
integer the normalized conference rank is that integer; for every other
value — absent or null (both `Json.null`) or malformed — the rank is
null.  Every normalized record's `conference_rank` is exactly
`conferenceRankOf` of the entry's extracted `playoffSeed` value. -/
theorem C7_conference_seed_never_raises :
    (∀ v : Json, (v = .null → conferenceRankOf v = .null) ∧
      (∀ n, pyInt v = .ok n → conferenceRankOf v = .num n) ∧
      (∀ e, pyInt v = .error e → conferenceRankOf v = .null)) ∧
    (∀ efs tfs conference k rec, teamFieldsOf efs = .ok tfs →
      normalizeEntry (.obj efs) conference = .ok (k, rec) →
      ∃ sv, seedOf efs = .ok sv ∧ rec.conference_rank = conferenceRankOf sv) := by
  constructor
  · intro v
    refine ⟨?_, ?_, ?_⟩
    · intro hv; rw [conferenceRankOf, if_pos hv]
    · intro n hn
      have hvn : v ≠ .null := by
        intro hc; rw [hc] at hn; simp [pyInt] at hn
      rw [conferenceRankOf, if_neg hvn, hn]
    · intro e he
      by_cases hv : v = Json.null
      · rw [conferenceRankOf, if_pos hv]
      · rw [conferenceRankOf, if_neg hv, he]
  · intro efs tfs conference k rec ht h
    obtain ⟨efs2, tfs2, core, hent, htfs2, hcore, hkv⟩ := normalizeEntry_ok_inv h
    injection hent with hee
    subst hee
    obtain ⟨dn, items, triples, wins, losses, ties, note, hdn, hhash, hit, htr,
      hw, hl, hti, hn, hco⟩ := entryCoreRest_ok_inv hcore
    refine ⟨(dGetLast (statsMapOf triples) (.str "playoffSeed")).getD .null, ?_, ?_⟩
    · rw [seedOf, hit]
      simp [Bind.bind, Except.bind, htr, Pure.pure, Except.pure]
    · have := congrArg (fun p => p.2.conference_rank) hkv
      simp only [hco, normalizeFromCore, coreOf] at this
      exact this

/-- C7, witness: a malformed seed string degrades to null, and the Lions
entry's seed 1 produces conference rank 1 through the full pipeline. -/
theorem C7_witness :
    conferenceRankOf (.str "abc") = .null ∧
    (∃ sv, seedOf lionsEfs = .ok sv ∧ recLions.conference_rank = conferenceRankOf sv) := by
  constructor
  · have he : pyInt (Json.str "abc") = .error (.valueError
        ("invalid literal for int() with base 10: "
          ++ String.singleton (Char.ofNat 39) ++ "abc" ++ String.singleton (Char.ofNat 39))) := by
      decide
    exact (C7_conference_seed_never_raises.1 (.str "abc")).2.2 _ he
  · exact C7_conference_seed_never_raises.2 lionsEfs lionsTfs .null
      (.str "Detroit Lions") recLions (by decide) (by decide)

/-! ### Claim C8: well-formed entries and missing point stats -/

/-- A team field that is absent, null, or a string. -/
def strOrNullOrMissing (tfs : List (String × Json)) (key : String) : Bool :=
  match jLookup tfs key with
  | some (.str _) => true
  | some .null => true
  | none => true
  | _ => false

/-- Team-dict well-formedness: the three name fields are absent, null or
strings. -/
def teamFieldsOk (tfs : List (String × Json)) : Bool :=
  strOrNullOrMissing tfs "displayName" && strOrNullOrMissing tfs "location"
    && strOrNullOrMissing tfs "name"

/-- A stat item of the expected shape: a dict whose `name` (if present) is
a string and whose `value` (if present) is a number or null. -/
def statItemOk (j : Json) : Bool :=
  match j with
  | .obj fs =>
    (match jLookup fs "name" with
     | some (.str _) => true
     | none => true
     | _ => false) &&
    (match jLookup fs "value" with
     | some (.num _) => true
     | some .null => true
     | none => true
     | _ => false)
  | _ => false

/-- The `stats` field is absent or a list of well-shaped stat items. -/
def statsFieldOk (efs : List (String × Json)) : Bool :=
  match jLookup efs "stats" with
  | some (.arr xs) => xs.all statItemOk
  | none => true
  | _ => false

/-- The `note` field is absent or a dict. -/
def noteFieldOk (efs : List (String × Json)) : Bool :=
  match jLookup efs "note" with
  | some (.obj _) => true
  | none => true
  | _ => false

/-- A raw entry of the shape the upstream standings payload delivers. -/
def wellFormedEntry (entry : Json) : Bool :=
  match entry with
  | .obj efs =>
    (match jLookup efs "team" with
     | some (.obj tfs) => teamFieldsOk tfs
     | none => true
     | _ => false) && statsFieldOk efs && noteFieldOk efs
  | _ => false

/-- The entry's stats list has no item named `statName`. -/
def lacksStat (entry : Json) (statName : String) : Bool :=
  match entry with
  | .obj efs =>
    match jLookup efs "stats" with
    | some (.arr xs) => xs.all (fun it =>
        match it with
        | .obj fs =>
          match jLookup fs "name" with
          | some v => decide (v ≠ Json.str statName)
          | none => true
        | _ => true)
    | _ => true
  | _ => true

theorem strOrNullOrMissing_cases {tfs : List (String × Json)} {key : String}
    (h : strOrNullOrMissing tfs key = true) :
    jLookup tfs key = none ∨ jLookup tfs key = some .null ∨
      ∃ s, jLookup tfs key = some (.str s) := by
  rw [strOrNullOrMissing] at h
  cases hk : jLookup tfs key with
  | none => exact Or.inl rfl
  | some v =>
    rw [hk] at h
    cases v with
    | null => exact Or.inr (Or.inl rfl)
    | str s => exact Or.inr (Or.inr ⟨s, rfl⟩)
    | bool b => simp at h
    | num n => simp at h
    | arr xs => simp at h
    | obj fs => simp at h

theorem strOfParts_ok (parts : List Json) (h : ∀ p ∈ parts, ∃ s, p = Json.str s) :
    ∃ strs : List String, strOfParts parts = Except.ok strs := by
  induction parts with
  | nil => exact ⟨[], rfl⟩
  | cons p rest ih =>
    obtain ⟨s, hs⟩ := h p (List.mem_cons_self _ _)
    obtain ⟨strs, hstrs⟩ := ih (fun q hq => h q (List.mem_cons_of_mem _ hq))
    subst hs
    exact ⟨s :: strs, by simp [strOfParts, hstrs, Bind.bind, Except.bind]⟩

theorem joinedLocName_ok {tfs : List (String × Json)}
    (hl : strOrNullOrMissing tfs "location" = true)
    (hn : strOrNullOrMissing tfs "name" = true) :
    ∃ s, joinedLocName tfs = .ok s := by
  have hparts : ∀ p ∈ [nGet tfs "location", nGet tfs "name"].filter Json.truthy,
      ∃ s, p = Json.str s := by
    intro p hp
    have hmem := List.mem_filter.mp hp
    have htru := hmem.2
    have hloc : p = nGet tfs "location" ∨ p = nGet tfs "name" := by
      simpa using hmem.1
    rcases hloc with hploc | hpnm
    · subst hploc
      rcases strOrNullOrMissing_cases hl with hc | hc | ⟨s, hc⟩ <;>
        simp [nGet, jGetD, hc, Json.truthy] at htru ⊢
    · subst hpnm
      rcases strOrNullOrMissing_cases hn with hc | hc | ⟨s, hc⟩ <;>
        simp [nGet, jGetD, hc, Json.truthy] at htru ⊢
  obtain ⟨strs, hstrs⟩ := strOfParts_ok _ hparts
  exact ⟨pyStrip (String.intercalate " " strs),
    by simp [joinedLocName, hstrs, Bind.bind, Except.bind, Pure.pure, Except.pure]⟩

theorem displayNameOf_ok {tfs : List (String × Json)} (h : teamFieldsOk tfs = true) :
    ∃ dn, displayNameOf tfs = .ok dn ∧ dn.hashable = true := by
  rw [teamFieldsOk] at h
  simp only [Bool.and_eq_true] at h
  obtain ⟨⟨hd, hl⟩, hn⟩ := h
  have hfallback : (jGetD tfs "name" (.str "Unknown Team")).hashable = true := by
    rcases strOrNullOrMissing_cases hn with hc | hc | ⟨s, hc⟩ <;> simp [jGetD, hc, Json.hashable]
  by_cases htru : (nGet tfs "displayName").truthy = true
  · refine ⟨nGet tfs "displayName", ?_, ?_⟩
    · simp [displayNameOf, htru, Pure.pure, Except.pure]
    · rcases strOrNullOrMissing_cases hd with hc | hc | ⟨s, hc⟩ <;>
        simp [nGet, jGetD, hc, Json.truthy, Json.hashable] at htru ⊢
  · have hfal : (nGet tfs "displayName").truthy = false := by
      cases hB : (nGet tfs "displayName").truthy
      · rfl
      · exact absurd hB htru
    obtain ⟨s, hs⟩ := joinedLocName_ok hl hn
    cases hE : (Json.str s).truthy
    · exact ⟨jGetD tfs "name" (.str "Unknown Team"),
        by simp [displayNameOf, hfal, hs, Bind.bind, Except.bind, hE, Pure.pure, Except.pure],
        hfallback⟩
    · exact ⟨.str s,
        by simp [displayNameOf, hfal, hs, Bind.bind, Except.bind, hE, Pure.pure, Except.pure],
        rfl⟩

theorem iterStats_ok {efs : List (String × Json)} (h : statsFieldOk efs = true) :
    ∃ items, iterStats (jGetD efs "stats" (.arr [])) = .ok items ∧
      ∀ it ∈ items, statItemOk it = true := by
  rw [statsFieldOk] at h
  cases hk : jLookup efs "stats" with
  | none => exact ⟨[], by simp [jGetD, hk, iterStats], by simp⟩
  | some v =>
    rw [hk] at h
    cases v with
    | arr xs =>
      refine ⟨xs, by simp [jGetD, hk, iterStats], ?_⟩
      intro it hit
      exact List.all_eq_true.mp h it hit
    | null => simp at h
    | bool b => simp at h
    | num n => simp at h
    | str s => simp at h
    | obj fs => simp at h

theorem statTriples_ok : ∀ (items : List Json), (∀ it ∈ items, statItemOk it = true) →
    ∃ triples, statTriples items = .ok triples ∧
      (∀ t ∈ triples, t.2.1 = .null ∨ ∃ n, t.2.1 = .num n) ∧
      (∀ t ∈ triples, ∃ it ∈ items, ∃ fs, it = .obj fs ∧ jLookup fs "name" = some t.1) := by
  intro items
  induction items with
  | nil => intro _; exact ⟨[], rfl, by simp, by simp⟩
  | cons it rest ih =>
    intro hall
    have hhd := hall it (List.mem_cons_self _ _)
    obtain ⟨tl, htl2, hv, hlink⟩ := ih (fun x hx => hall x (List.mem_cons_of_mem _ hx))
    cases it with
    | obj fs =>
      simp only [statItemOk, Bool.and_eq_true] at hhd
      obtain ⟨hname, hval⟩ := hhd
      cases hnm : jLookup fs "name" with
      | none =>
        refine ⟨tl, ?_, hv, fun t ht => ?_⟩
        · simp [statTriples, hasNameKey, Bind.bind, Except.bind, hnm, htl2]
        · obtain ⟨it2, hit2, fs2, hfs2, hn2⟩ := hlink t ht
          exact ⟨it2, List.mem_cons_of_mem _ hit2, fs2, hfs2, hn2⟩
      | some v =>
        rw [hnm] at hname
        cases v with
        | str s =>
          refine ⟨(Json.str s, nGet fs "value", nGet fs "displayValue") :: tl, ?_, ?_, ?_⟩
          · simp [statTriples, hasNameKey, Bind.bind, Except.bind, hnm, htl2,
              nGet, jGetD, Json.hashable]
          · intro t ht
            rcases List.mem_cons.mp ht with hh | hh
            · subst hh
              cases hvv : jLookup fs "value" with
              | none => exact Or.inl (by simp [nGet, jGetD, hvv])
              | some w =>
                rw [hvv] at hval
                cases w with
                | num n => exact Or.inr ⟨n, by simp [nGet, jGetD, hvv]⟩
                | null => exact Or.inl (by simp [nGet, jGetD, hvv])
                | bool b => simp at hval
                | str s2 => simp at hval
                | arr xs => simp at hval
                | obj fs2 => simp at hval
            · exact hv t hh
          · intro t ht
            rcases List.mem_cons.mp ht with hh | hh
            · subst hh
              exact ⟨.obj fs, List.mem_cons_self _ _, fs, rfl, hnm⟩
            · obtain ⟨it2, hit2, fs2, hfs2, hn2⟩ := hlink t hh
              exact ⟨it2, List.mem_cons_of_mem _ hit2, fs2, hfs2, hn2⟩
        | null => simp at hname
        | bool b => simp at hname
        | num n => simp at hname
        | arr xs => simp at hname
        | obj fs2 => simp at hname
    | null => simp [statItemOk] at hhd
    | bool b => simp [statItemOk] at hhd
    | num n => simp [statItemOk] at hhd
    | str s => simp [statItemOk] at hhd
    | arr xs => simp [statItemOk] at hhd

theorem dGetLast_mem {l : List (Json × Json)} {k v : Json} (h : dGetLast l k = some v) :
    ∃ k0, (k0, v) ∈ l := by
  induction l with
  | nil => simp [dGetLast] at h
  | cons kv0 rest ih =>
    obtain ⟨k0, v0⟩ := kv0
    rw [dGetLast] at h
    cases hr : dGetLast rest k with
    | some w =>
      rw [hr] at h
      obtain ⟨k1, hk1⟩ := ih (hr.trans (congrArg some (Option.some.inj h)))
      exact ⟨k1, List.mem_cons_of_mem _ hk1⟩
    | none =>
      rw [hr] at h
      by_cases h0 : k0 = k
      · rw [if_pos h0] at h
        exact ⟨k0, by rw [Option.some.inj h]; exact List.mem_cons_self _ _⟩
      · rw [if_neg h0] at h
        simp at h

theorem pyInt_intArg_ok (triples : List (Json × Json × Json))
    (hv : ∀ t ∈ triples, t.2.1 = .null ∨ ∃ n, t.2.1 = .num n) (key : String) :
    ∃ n, pyInt (intArgOf triples key) = .ok n := by
  rw [intArgOf]
  cases hd : dGetLast (statsMapOf triples) (.str key) with
  | none => exact ⟨0, by simp [orJ, Json.truthy, pyInt]⟩
  | some v =>
    obtain ⟨k0, hmem⟩ := dGetLast_mem hd
    have hmem2 : (k0, v) ∈ triples.map (fun t => (t.1, t.2.1)) := by
      simpa [statsMapOf] using hmem
    obtain ⟨t, htmem, hpt⟩ := List.mem_map.mp hmem2
    have hv2 : v = .null ∨ ∃ n, v = .num n := by
      have := hv t htmem
      rcases this with hc | ⟨n, hc⟩
      · exact Or.inl (by rw [← hc]; exact (congrArg Prod.snd hpt).symm)
      · exact Or.inr ⟨n, by rw [← hc]; exact (congrArg Prod.snd hpt).symm⟩
    rcases hv2 with hc | ⟨n, hc⟩
    · subst hc
      exact ⟨0, by simp [orJ, Json.truthy, pyInt]⟩
    · subst hc
      by_cases hz : n = 0
      · subst hz
        exact ⟨0, by simp [orJ, Json.truthy, pyInt]⟩
      · exact ⟨n, by simp [orJ, Json.truthy, pyInt, hz]⟩

theorem noteOf_ok {efs : List (String × Json)} (h : noteFieldOk efs = true) :
    ∃ note, noteOf efs = .ok note := by
  rw [noteFieldOk] at h
  cases hk : jLookup efs "note" with
  | none => exact ⟨.null, by simp [noteOf, jGetD, hk, nGet, jLookup]⟩
  | some v =>
    rw [hk] at h
    cases v with
    | obj nfs => exact ⟨nGet nfs "text", by simp [noteOf, jGetD, hk]⟩
    | null => simp at h
    | bool b => simp at h
    | num n => simp at h
    | str s => simp at h
    | arr xs => simp at h

theorem wellFormed_parts {efs : List (String × Json)}
    (h : wellFormedEntry (.obj efs) = true) :
    ∃ tfs, teamFieldsOf efs = .ok tfs ∧ teamFieldsOk tfs = true ∧
      statsFieldOk efs = true ∧ noteFieldOk efs = true := by
  rw [wellFormedEntry] at h
  simp only [Bool.and_eq_true] at h
  obtain ⟨⟨hteam, hstats⟩, hnote⟩ := h
  cases hk : jLookup efs "team" with
  | none => exact ⟨[], by simp [teamFieldsOf, jGetD, hk], by decide, hstats, hnote⟩
  | some v =>
    rw [hk] at hteam
    cases v with
    | obj tfs => exact ⟨tfs, by simp [teamFieldsOf, jGetD, hk], hteam, hstats, hnote⟩
    | null => simp at hteam
    | bool b => simp at hteam
    | num n => simp at hteam
    | str s => simp at hteam
    | arr xs => simp at hteam

theorem dGetLast_none {l : List (Json × Json)} {k : Json}
    (h : ∀ p ∈ l, p.1 ≠ k) : dGetLast l k = none := by
  induction l with
  | nil => rfl
  | cons kv0 rest ih =>
    obtain ⟨k0, v0⟩ := kv0
    rw [dGetLast, ih (fun p hp => h p (List.mem_cons_of_mem _ hp))]
    rw [if_neg (h (k0, v0) (List.mem_cons_self _ _))]

theorem lacks_implies_none {efs : List (String × Json)} {items : List Json}
    {triples : List (Json × Json × Json)} {statName : String}
    (hl : lacksStat (.obj efs) statName = true)
    (hstats : statsFieldOk efs = true)
    (hit : iterStats (jGetD efs "stats" (.arr [])) = .ok items)
    (hlink : ∀ t ∈ triples, ∃ it ∈ items, ∃ fs, it = .obj fs ∧ jLookup fs "name" = some t.1) :
    dGetLast (statsMapOf triples) (.str statName) = none := by
  apply dGetLast_none
  intro p hp
  have hp2 : p ∈ triples.map (fun t => (t.1, t.2.1)) := by
    simpa [statsMapOf] using hp
  obtain ⟨t, htmem, hpt⟩ := List.mem_map.mp hp2
  obtain ⟨it, hitmem, fs, hfs, hname⟩ := hlink t htmem
  rw [lacksStat] at hl
  rw [statsFieldOk] at hstats
  cases hjs : jLookup efs "stats" with
  | none =>
    rw [show jGetD efs "stats" (.arr []) = .arr [] by simp [jGetD, hjs]] at hit
    rw [iterStats] at hit
    rw [← Except.ok.inj hit] at hitmem
    simp at hitmem
  | some v =>
    rw [hjs] at hl hstats
    cases v with
    | arr xs =>
      rw [show jGetD efs "stats" (.arr []) = .arr xs by simp [jGetD, hjs]] at hit
      rw [iterStats] at hit
      rw [← Except.ok.inj hit] at hitmem
      have hthis := List.all_eq_true.mp hl it hitmem
      simp only [hfs, hname, ne_eq, decide_eq_true_eq] at hthis
      have hne : t.1 ≠ Json.str statName := hthis
      intro hc
      apply hne
      rw [← hc]
      exact congrArg Prod.fst hpt
    | null => simp at hstats
    | bool b => simp at hstats
    | num n => simp at hstats
    | str s => simp at hstats
    | obj fs2 => simp at hstats

/-- C8 (amended).  For every well-formed raw entry (team name fields
strings or absent, stat items dicts with string names and numeric-or-null
values, note a dict or absent) whose stats list lacks the `pointsFor` or
`pointsAgainst` stat, normalization succeeds — the absent stat never
causes a failure — the corresponding normalized fields are null, and the
downstream point differential is null (it is computed only when both
values are non-null).  (The original claim's unconditional "normalization
succeeds" is refuted by `C8_counterexample_malformed_wins`: an entry that
also carries an unparseable `wins` stat raises `ValueError` even though it
lacks `pointsFor`.) -/
theorem C8_missing_points_null_differential (entry conference : Json)
    (hwf : wellFormedEntry entry = true)
    (hlack : lacksStat entry "pointsFor" = true ∨ lacksStat entry "pointsAgainst" = true) :
    ∃ k rec, normalizeEntry entry conference = .ok (k, rec) ∧
      (lacksStat entry "pointsFor" = true → rec.points_for = .null) ∧
      (lacksStat entry "pointsAgainst" = true → rec.points_against = .null) ∧
      pointDifferential rec.points_for rec.points_against = .ok .null := by
  cases entry with
  | obj efs =>
    obtain ⟨tfs, htfs, hteam, hstats, hnote⟩ := wellFormed_parts hwf
    obtain ⟨dn, hdn, hhash⟩ := displayNameOf_ok hteam
    obtain ⟨items, hit, hallit⟩ := iterStats_ok hstats
    obtain ⟨triples, htr, hvals, hlink⟩ := statTriples_ok items hallit
    obtain ⟨w, hw⟩ := pyInt_intArg_ok triples hvals "wins"
    obtain ⟨lo, hlo⟩ := pyInt_intArg_ok triples hvals "losses"
    obtain ⟨ti, hti⟩ := pyInt_intArg_ok triples hvals "ties"
    obtain ⟨note, hnk⟩ := noteOf_ok hnote
    have hok := @entryCoreRest_eq_ok efs tfs (nGet tfs "id") conference dn items triples
      w lo ti note hdn hhash hit htr hw hlo hti hnk
    have hne := normalizeEntry_eq_ok htfs hok
    have hpf : lacksStat (.obj efs) "pointsFor" = true →
        (normalizeFromCore (coreOf dn conference triples w lo ti note (nGet tfs "id"))).2.points_for
          = .null := by
      intro hlpf
      simp only [normalizeFromCore, coreOf]
      rw [lacks_implies_none hlpf hstats hit hlink]
      rfl
    have hpa : lacksStat (.obj efs) "pointsAgainst" = true →
        (normalizeFromCore (coreOf dn conference triples w lo ti note (nGet tfs "id"))).2.points_against
          = .null := by
      intro hlpa
      simp only [normalizeFromCore, coreOf]
      rw [lacks_implies_none hlpa hstats hit hlink]
      rfl
    refine ⟨(normalizeFromCore (coreOf dn conference triples w lo ti note (nGet tfs "id"))).1,
      (normalizeFromCore (coreOf dn conference triples w lo ti note (nGet tfs "id"))).2,
      hne, hpf, hpa, ?_⟩
    rcases hlack with hlpf | hlpa
    · rw [hpf hlpf]
      simp [pointDifferential]
    · rw [hpa hlpa]
      simp [pointDifferential]
  | null => simp [wellFormedEntry] at hwf
  | bool b => simp [wellFormedEntry] at hwf
  | num n => simp [wellFormedEntry] at hwf
  | str s => simp [wellFormedEntry] at hwf
  | arr xs => simp [wellFormedEntry] at hwf

/-- An otherwise-malformed entry that lacks `pointsFor`. -/
def c8badEntry : Json :=
  .obj [("stats", .arr [.obj [("name", .str "wins"), ("value", .str "oops")]])]

/-- C8, counterexample to the claim as stated: this entry's stats list
lacks `pointsFor`, yet normalization raises `ValueError` (from
`int("oops")`) instead of succeeding. -/
theorem C8_counterexample_malformed_wins :
    lacksStat c8badEntry "pointsFor" = true ∧
    normalizeEntry c8badEntry .null = .error (.valueError
      ("invalid literal for int() with base 10: " ++ String.singleton (Char.ofNat 39)
        ++ "oops" ++ String.singleton (Char.ofNat 39))) := by
  constructor
  · decide
  · decide

/-- C8, witness: the Bills entry is well-formed and lacks both point
stats; normalization succeeds with null points and a null differential. -/
theorem C8_witness :
    wellFormedEntry entryBills = true ∧
    (∃ k rec, normalizeEntry entryBills .null = .ok (k, rec) ∧
      (lacksStat entryBills "pointsFor" = true → rec.points_for = .null) ∧
      (lacksStat entryBills "pointsAgainst" = true → rec.points_against = .null) ∧
      pointDifferential rec.points_for rec.points_against = .ok .null) :=
  ⟨by decide, C8_missing_points_null_differential entryBills .null (by decide)
    (Or.inl (by decide))⟩

/-! ### Claim C3: roster assembly -/

/-- Erase the `college` field, the only field `_populate_college_names`
may modify. -/
def dropCollege : Json → Json
  | .obj fs => .obj (fs.filter (fun p => decide (p.1 ≠ "college")))
  | j => j

theorem filter_sInsert (fs : List (String × Json)) (v : Json) :
    (sInsert fs "college" v).filter (fun p => !decide (p.1 = "college"))
      = fs.filter (fun p => !decide (p.1 = "college")) := by
  induction fs with
  | nil => simp [sInsert]
  | cons kv rest ih =>
    obtain ⟨k0, v0⟩ := kv
    by_cases h0 : k0 = "college"
    · subst h0
      simp [sInsert]
    · simp [sInsert, h0, ih]

theorem applyCollege_dropCollege (rtf : List (String × Json)) (a : Json) :
    dropCollege (applyCollege rtf a) = dropCollege a := by
  cases a with
  | obj afs =>
    simp only [applyCollege]
    repeat' split
    all_goals first
      | rfl
      | (simp [dropCollege, filter_sInsert])
  | null => rfl
  | bool b => rfl
  | num n => rfl
  | str s => rfl
  | arr xs => rfl

theorem map_dropCollege_applyCollege (rtf : List (String × Json)) :
    ∀ (l : List Json), (l.map (applyCollege rtf)).map dropCollege = l.map dropCollege := by
  intro l
  induction l with
  | nil => rfl
  | cons a rest ih => simp [applyCollege_dropCollege, ih]

/-- The reference URL contributed by a roster-index item, if any. -/
def refOfItem : Json → Option String
  | .obj ifs =>
    match jLookup ifs "$ref" with
    | some (.str s) => if s.isEmpty then none else some (normalize_ref_url s)
    | _ => none
  | _ => none

/-- All reference URLs of a roster index's items, in order. -/
def itemRefs (items : List Json) : List String :=
  items.filterMap refOfItem

/-- The truthy payloads among the resolutions of the given references, in
order. -/
def resolvedTruthy (resolve : String → Option Json) (refs : List String) : List Json :=
  (refs.map (fun r => (resolve r).getD Json.null)).filter Json.truthy

theorem splitItems_all_refs : ∀ (items : List Json),
    (∀ it ∈ items, ∃ ifs s, it = .obj ifs ∧ jLookup ifs "$ref" = some (.str s) ∧ s ≠ "") →
    splitItems items = .ok (itemRefs items, []) := by
  intro items
  induction items with
  | nil => intro _; rfl
  | cons it rest ih =>
    intro h
    obtain ⟨ifs, s, hit, href, hs⟩ := h it (List.mem_cons_self _ _)
    subst hit
    have hne : s.isEmpty = false := by
      cases hE : s.isEmpty
      · rfl
      · exact absurd ((String.isEmpty_iff s).mp hE) hs
    have htru : (nGet ifs "$ref").truthy = true := by
      simp [nGet, jGetD, href, Json.truthy, hne]
    have hrest := ih (fun q hq => h q (List.mem_cons_of_mem _ hq))
    simp [splitItems, nGet, jGetD, href, Json.truthy, hne, hrest, Bind.bind, Except.bind,
      itemRefs, List.filterMap_cons, refOfItem]

theorem rtfStep_obj_ok (cache rtf : List (String × Json)) (afs : List (String × Json)) :
    ∃ r, rtfStep cache rtf (.obj afs) = .ok r := by
  rw [rtfStep]
  repeat' split
  all_goals exact ⟨_, rfl⟩

theorem buildRtf_ok (cache : List (String × Json)) : ∀ (athletes : List Json),
    (∀ a ∈ athletes, ∃ afs, a = .obj afs) →
    ∀ rtf, ∃ rtf2, buildRtf cache athletes rtf = .ok rtf2 := by
  intro athletes
  induction athletes with
  | nil => intro _ rtf; exact ⟨rtf, rfl⟩
  | cons a rest ih =>
    intro h rtf
    obtain ⟨afs, ha⟩ := h a (List.mem_cons_self _ _)
    subst ha
    obtain ⟨r1, hr1⟩ := rtfStep_obj_ok cache rtf afs
    obtain ⟨r2, hr2⟩ := ih (fun q hq => h q (List.mem_cons_of_mem _ hq)) r1
    exact ⟨r2, by simp [buildRtf, hr1, Bind.bind, Except.bind, hr2]⟩

theorem fetchColleges_ok (cfetch : String → Option Json)
    (hc : ∀ u p, cfetch u = some p → ∃ pfs, p = .obj pfs) :
    ∀ (refs : List String) (rtf cache : List (String × Json)),
    ∃ pr, fetchColleges cfetch refs rtf cache = .ok pr := by
  intro refs
  induction refs with
  | nil => intro rtf cache; exact ⟨(rtf, cache), rfl⟩
  | cons ref rest ih =>
    intro rtf cache
    cases hcf : cfetch ref with
    | none =>
      obtain ⟨pr, hpr⟩ := ih rtf cache
      exact ⟨pr, by rw [fetchColleges, hcf]; exact hpr⟩
    | some p =>
      obtain ⟨pfs, hp⟩ := hc ref p hcf
      subst hp
      cases hname : (orJ (nGet pfs "name")
          (orJ (nGet pfs "shortDisplayName") (nGet pfs "displayName"))).truthy
      · obtain ⟨pr, hpr⟩ := ih rtf cache
        refine ⟨pr, ?_⟩
        rw [fetchColleges, hcf]
        simp only [hname, Bool.false_eq_true, if_false]
        exact hpr
      · obtain ⟨pr, hpr⟩ := ih
          (sInsert rtf ref (orJ (nGet pfs "name")
            (orJ (nGet pfs "shortDisplayName") (nGet pfs "displayName"))))
          (sInsert cache ref (orJ (nGet pfs "name")
            (orJ (nGet pfs "shortDisplayName") (nGet pfs "displayName"))))
        refine ⟨pr, ?_⟩
        rw [fetchColleges, hcf]
        simp only [hname, if_true]
        exact hpr

theorem populate_preserves (cfetch : String → Option Json) (cache : List (String × Json))
    (athletes : List Json)
    (ha : ∀ a ∈ athletes, ∃ afs, a = .obj afs)
    (hc : ∀ u p, cfetch u = some p → ∃ pfs, p = .obj pfs) :
    ∃ out cache2, populate_college_names cfetch cache athletes = .ok (out, cache2) ∧
      out.map dropCollege = athletes.map dropCollege ∧
      out.length = athletes.length := by
  obtain ⟨rtf0, hrtf0⟩ := buildRtf_ok cache athletes ha []
  obtain ⟨pr, hpr⟩ := fetchColleges_ok cfetch hc (pendingRefs rtf0) rtf0 cache
  refine ⟨athletes.map (applyCollege pr.1), pr.2, ?_, ?_, by simp⟩
  · simp [populate_college_names, hrtf0, Bind.bind, Except.bind, hpr]
  · exact map_dropCollege_applyCollege pr.1 athletes

/-- C3 (amended).  For every roster index whose items are reference
pointers (dicts with a non-empty string `$ref`), with resolved payloads
being JSON objects, the assembled roster consists exactly of the
references that resolved to truthy payloads, in order — each failed
(or falsy) reference silently drops just that player, with no error for
the roster as a whole — provided at least one reference resolves to a
truthy payload.  (The original claim, which promised this even when every
reference fails, is refuted by `C3_counterexample_all_refs_fail`: an
all-failed roster raises `ValueError` instead of returning the empty
roster.)  The roster is compared modulo the `college` field, the only
field the college-resolution passes may fill in. -/
theorem C3_roster_drops_failed_refs (resolve cfetch : String → Option Json)
    (cache : List (String × Json)) (fs : List (String × Json)) (items : List Json)
    (hitems : jLookup fs "items" = some (.arr items))
    (hrefs : ∀ it ∈ items, ∃ ifs s, it = .obj ifs ∧ jLookup ifs "$ref" = some (.str s) ∧ s ≠ "")
    (hres : ∀ u p, resolve u = some p → ∃ pfs, p = .obj pfs)
    (hcol : ∀ u p, cfetch u = some p → ∃ pfs, p = .obj pfs)
    (hsome : resolvedTruthy resolve (itemRefs items) ≠ []) :
    ∃ athletes cache2,
      fetch_roster_payload resolve cfetch cache (.obj fs)
        = .ok (.obj [("athletes", .arr athletes)], cache2) ∧
      athletes.map dropCollege = (resolvedTruthy resolve (itemRefs items)).map dropCollege ∧
      athletes.length = (resolvedTruthy resolve (itemRefs items)).length := by
  have hsplit := splitItems_all_refs items hrefs
  have hathobjs : ∀ a ∈ resolvedTruthy resolve (itemRefs items), ∃ afs, a = .obj afs := by
    intro a ha
    have hmem := List.mem_filter.mp ha
    obtain ⟨r, hr, hra⟩ := List.mem_map.mp hmem.1
    have htru := hmem.2
    cases hres0 : resolve r with
    | none =>
      rw [hres0] at hra
      simp at hra
      rw [← hra] at htru
      simp [Json.truthy] at htru
    | some p =>
      rw [hres0] at hra
      simp at hra
      obtain ⟨pfs, hp⟩ := hres r p hres0
      exact ⟨pfs, by rw [← hra]; exact hp⟩
  obtain ⟨out, cache2, hpop, hmap, hlen⟩ :=
    populate_preserves cfetch cache (resolvedTruthy resolve (itemRefs items)) hathobjs hcol
  have hemp : (resolvedTruthy resolve (itemRefs items)).isEmpty = false := by
    cases hE : (resolvedTruthy resolve (itemRefs items)).isEmpty
    · rfl
    · exact absurd (List.isEmpty_iff.mp hE) hsome
  have hng : nGet fs "items" = .arr items := by simp [nGet, jGetD, hitems]
  refine ⟨out, cache2, ?_, by rw [hmap], by rw [hlen]⟩
  rw [fetch_roster_payload]
  simp only [hng, hsplit, Bind.bind, Except.bind, Pure.pure, Except.pure, List.nil_append]
  simp only [resolvedTruthy] at hemp hpop
  simp only [hemp, Bool.false_eq_true, if_false, hpop]

/-- A roster index with a single reference item. -/
def cexRosterIndex : Json := .obj [("items", .arr [.obj [("$ref", .str "https://x/p1")]])]

/-- C3, counterexample to the claim as stated: when the only player
reference fails to resolve, `fetch_roster_payload` raises `ValueError`
rather than producing the (empty) roster of resolved players with no
error. -/
theorem C3_counterexample_all_refs_fail :
    fetch_roster_payload (fun _ => none) (fun _ => none) [] cexRosterIndex
      = .error (.valueError "Roster index returned no athletes.") := by
  decide

/-- A resolver for which the first of two references resolves. -/
def c3resolve : String → Option Json := fun u =>
  if u = "https://x/p1" then some (.obj [("fullName", .str "Player One")]) else none

def c3items : List Json :=
  [.obj [("$ref", .str "https://x/p1")], .obj [("$ref", .str "https://x/p2")]]

/-- C3, witness: of two references one fails; the final roster holds
exactly the resolved player. -/
theorem C3_witness :
    ∃ athletes cache2,
      fetch_roster_payload c3resolve (fun _ => none) [] (.obj [("items", .arr c3items)])
        = .ok (.obj [("athletes", .arr athletes)], cache2) ∧
      athletes.map dropCollege = (resolvedTruthy c3resolve (itemRefs c3items)).map dropCollege ∧
      athletes.length = (resolvedTruthy c3resolve (itemRefs c3items)).length := by
  apply C3_roster_drops_failed_refs c3resolve (fun _ => none) [] [("items", .arr c3items)]
    c3items (by decide)
  · intro it hit
    rw [c3items] at hit
    rcases List.mem_cons.mp hit with h | h
    · exact ⟨[("$ref", .str "https://x/p1")], "https://x/p1", h, by decide, by decide⟩
    · rcases List.mem_cons.mp h with h2 | h2
      · exact ⟨[("$ref", .str "https://x/p2")], "https://x/p2", h2, by decide, by decide⟩
      · simp at h2
  · intro u p h
    rw [c3resolve] at h
    by_cases hu : u = "https://x/p1"
    · rw [if_pos hu] at h
      exact ⟨[("fullName", .str "Player One")], (Option.some.inj h).symm⟩
    · rw [if_neg hu] at h
      simp at h
  · intro u p h
    simp at h
  · decide

/-! ### Claim C10: the walker terminates with a bounded output -/

mutual

/-- A structural measure of a JSON tree: the number of elements of every
`entries` list reachable through the walker's wrapper keys. -/
def cbound : Json → Nat
  | .arr xs => cboundItems xs
  | .obj fs =>
    (match jLookup fs "entries" with
     | some (.arr es) => es.length
     | _ => 0)
    + cboundField fs "standings" + cboundField fs "children" + cboundField fs "groups"
    + cboundField fs "leagues" + cboundField fs "conferences" + cboundField fs "divisions"
  | _ => 0

def cboundItems : List Json → Nat
  | [] => 0
  | x :: xs => cbound x + cboundItems xs

def cboundField : List (String × Json) → String → Nat
  | [], _ => 0
  | (k, v) :: rest, key => if k = key then cbound v else cboundField rest key

end

theorem collectItems_bound (xs : List Json) (conference : Json)
    (IH : ∀ x ∈ xs, ∀ c l, collect_entries x c = .ok l → l.length ≤ cbound x) :
    ∀ l, collectItems xs conference = .ok l → l.length ≤ cboundItems xs := by
  induction xs with
  | nil =>
    intro l h
    rw [collectItems] at h
    rw [← Except.ok.inj h]
    simp [cboundItems]
  | cons x rest ih =>
    intro l h
    rw [collectItems] at h
    obtain ⟨r, hr, h⟩ := exceptBind_ok h
    try dsimp only at h
    obtain ⟨rs, hrs, h⟩ := exceptBind_ok h
    try dsimp only at h
    have hl : l = r ++ rs := by simpa [Pure.pure, Except.pure] using h.symm
    subst hl
    rw [cboundItems]
    rw [List.length_append]
    have h1 := IH x (List.mem_cons_self _ _) conference r hr
    have h2 := ih (fun y hy => IH y (List.mem_cons_of_mem _ hy)) rs hrs
    omega

theorem collectField_bound (fs : List (String × Json)) (key : String) (conference : Json)
    (IH : ∀ kv ∈ fs, ∀ c l, collect_entries kv.2 c = .ok l → l.length ≤ cbound kv.2) :
    ∀ l, collectField fs key conference = .ok l → l.length ≤ cboundField fs key := by
  induction fs with
  | nil =>
    intro l h
    rw [collectField] at h
    rw [← Except.ok.inj h]
    simp [cboundField]
  | cons kv rest ih =>
    obtain ⟨k, v⟩ := kv
    intro l h
    rw [collectField] at h
    by_cases hk : k = key
    · rw [if_pos hk] at h
      rw [cboundField, if_pos hk]
      exact IH (k, v) (List.mem_cons_self _ _) conference l h
    · rw [if_neg hk] at h
      rw [cboundField, if_neg hk]
      exact ih (fun q hq => IH q (List.mem_cons_of_mem _ hq)) l h

theorem collect_entries_bound_aux : ∀ (n : Nat) (j : Json), sizeOf j ≤ n →
    ∀ c l, collect_entries j c = .ok l → l.length ≤ cbound j := by
  intro n
  induction n with
  | zero =>
    intro j hj
    exfalso
    cases j <;> simp at hj
  | succ n ih =>
    intro j hj c l hc
    cases j with
    | null =>
      have hval : collect_entries Json.null c = .ok [] := rfl
      rw [hval] at hc
      rw [← Except.ok.inj hc]
      exact Nat.zero_le _
    | bool b =>
      have hval : collect_entries (Json.bool b) c = .ok [] := rfl
      rw [hval] at hc
      rw [← Except.ok.inj hc]
      exact Nat.zero_le _
    | num m =>
      have hval : collect_entries (Json.num m) c = .ok [] := rfl
      rw [hval] at hc
      rw [← Except.ok.inj hc]
      exact Nat.zero_le _
    | str s =>
      have hval : collect_entries (Json.str s) c = .ok [] := rfl
      rw [hval] at hc
      rw [← Except.ok.inj hc]
      exact Nat.zero_le _
    | arr xs =>
      rw [collect_entries] at hc
      have hIH : ∀ x ∈ xs, ∀ c2 l2, collect_entries x c2 = .ok l2 → l2.length ≤ cbound x := by
        intro x hx c2 l2 h2
        refine ih x ?_ c2 l2 h2
        have hlt := List.sizeOf_lt_of_mem hx
        have hs : sizeOf (Json.arr xs) = 1 + sizeOf xs := by simp
        omega
      have := collectItems_bound xs c hIH l hc
      rw [cbound]
      exact this
    | obj fs =>
      rw [collect_entries] at hc
      obtain ⟨cc, hcc, hc⟩ := exceptBind_ok hc
      try dsimp only at hc
      obtain ⟨r1, h1, hc⟩ := exceptBind_ok hc
      try dsimp only at hc
      obtain ⟨r2, h2, hc⟩ := exceptBind_ok hc
      try dsimp only at hc
      obtain ⟨r3, h3, hc⟩ := exceptBind_ok hc
      try dsimp only at hc
      obtain ⟨r4, h4, hc⟩ := exceptBind_ok hc
      try dsimp only at hc
      obtain ⟨r5, h5, hc⟩ := exceptBind_ok hc
      try dsimp only at hc
      obtain ⟨r6, h6, hc⟩ := exceptBind_ok hc
      try dsimp only at hc
      have hIH : ∀ kv ∈ fs, ∀ c2 l2, collect_entries kv.2 c2 = .ok l2 →
          l2.length ≤ cbound kv.2 := by
        intro kv hkv c2 l2 h2
        refine ih kv.2 ?_ c2 l2 h2
        have hlt := List.sizeOf_lt_of_mem hkv
        have hkv2 : sizeOf kv.2 < sizeOf kv := by
          obtain ⟨k2, v2⟩ := kv
          simp
        have hs : sizeOf (Json.obj fs) = 1 + sizeOf fs := by simp
        omega
      have b1 := collectField_bound fs "standings" cc hIH r1 h1
      have b2 := collectField_bound fs "children" cc hIH r2 h2
      have b3 := collectField_bound fs "groups" cc hIH r3 h3
      have b4 := collectField_bound fs "leagues" cc hIH r4 h4
      have b5 := collectField_bound fs "conferences" cc hIH r5 h5
      have b6 := collectField_bound fs "divisions" cc hIH r6 h6
      rw [cbound]
      rcases hje : jLookup fs "entries" with _ | v
      · rw [hje] at hc
        have hl : l = [] ++ r1 ++ r2 ++ r3 ++ r4 ++ r5 ++ r6 := by
          simpa [Pure.pure, Except.pure] using hc.symm
        subst hl
        simp only [List.length_append, List.nil_append]
        omega
      · rw [hje] at hc
        cases v with
        | arr es =>
          have hl : l = es.map (fun e => (e, cc)) ++ r1 ++ r2 ++ r3 ++ r4 ++ r5 ++ r6 := by
            simpa [Pure.pure, Except.pure] using hc.symm
          subst hl
          simp only [List.length_append, List.length_map]
          omega
        | null =>
          have hl : l = [] ++ r1 ++ r2 ++ r3 ++ r4 ++ r5 ++ r6 := by
            simpa [Pure.pure, Except.pure] using hc.symm
          subst hl
          simp only [List.length_append, List.nil_append]
          omega
        | bool b2 =>
          have hl : l = [] ++ r1 ++ r2 ++ r3 ++ r4 ++ r5 ++ r6 := by
            simpa [Pure.pure, Except.pure] using hc.symm
          subst hl
          simp only [List.length_append, List.nil_append]
          omega
        | num m2 =>
          have hl : l = [] ++ r1 ++ r2 ++ r3 ++ r4 ++ r5 ++ r6 := by
            simpa [Pure.pure, Except.pure] using hc.symm
          subst hl
          simp only [List.length_append, List.nil_append]
          omega
        | str s2 =>
          have hl : l = [] ++ r1 ++ r2 ++ r3 ++ r4 ++ r5 ++ r6 := by
            simpa [Pure.pure, Except.pure] using hc.symm
          subst hl
          simp only [List.length_append, List.nil_append]
          omega
        | obj fs2 =>
          have hl : l = [] ++ r1 ++ r2 ++ r3 ++ r4 ++ r5 ++ r6 := by
            simpa [Pure.pure, Except.pure] using hc.symm
          subst hl
          simp only [List.length_append, List.nil_append]
          omega

/-- C10.  The schema walk terminates on every finite JSON value:
`collect_entries` is defined by structural recursion over the tree (so it
is total in this development), and whenever it returns a list of
`(entry, conference)` pairs, that list is finite with length bounded by
`cbound`, the structurally defined count of `entries`-list elements
reachable through the fixed wrapper keys. -/
theorem C10_walker_output_bounded (node conference : Json) (l : List (Json × Json))
    (h : collect_entries node conference = .ok l) : l.length ≤ cbound node :=
  collect_entries_bound_aux (sizeOf node) node (le_refl _) conference l h

/-- C10, witness: the nested payload's three collected pairs are bounded
by its `cbound` of 3. -/
theorem C10_witness :
    collect_entries payloadNested .null = .ok pairsNested ∧
    pairsNested.length ≤ cbound payloadNested :=
  ⟨by decide, C10_walker_output_bounded payloadNested .null pairsNested (by decide)⟩

end Huddle
